import Mathlib

/-!
# ChYing: Intruder payload generation and the DSL evaluation context

A shallow embedding of

* `pkg/mcpserver/tools_intruder.go`: the four request generators
  (`generateSniperRequests`, `generateBatteringRamRequests`,
  `generatePitchforkRequests`, `generateClusterBombRequests`) and their
  dispatcher `generateIntruderRequests`;
* `mitmproxy/dsl.go`: `parseRawHTTP`, `mergeDSLContext`, the synthetic
  context of `validateDSL`, `evaluateDSL` and `QueryHistoryByDSL`;
* `pkg/mcpserver/tools_intruder.go`: the tool handler `handleRunIntruder`
  and the dispatcher `executeIntruderRequests`.

## Conventions

* A Go `string` is a list of code points (`Str`).  The strings handled here
  are text: tool arguments decoded from JSON and HTTP messages.  The library
  functions the code calls (`strings.Replace`, `strings.SplitN`,
  `strings.TrimPrefix`, `strings.TrimSuffix`, `strings.IndexByte`, the line
  scanner) search for separators that are whole code points, so on text their
  byte-wise behaviour is the code-point-wise behaviour written below.
* Loops are recursive functions that carry the loop variables.
* A run-time panic (index out of range) is the value `none`.
* Request ids are `int64` in the source.  An id never exceeds the length of
  a slice held in memory, so it is an `Int` here and never wraps.
* A Go map is an association list with at most one binding per key; the
  order of its bindings carries no meaning and is never observed by a
  statement below.
* What lies outside the files at hand (the DSL evaluator, the store, the
  JSON decoder, the HTTP client) is a parameter of the function that calls
  it. Calls whose occurrence matters (`db.GetTraffic`, the dispatch of
  requests) are recorded in an extra component of the result.
* The goroutines of `executeIntruderRequests` share the result slice only;
  each writes one slot. The order of these writes is a parameter
  (`schedule`), and the statements hold for every order.
-/

namespace ChYing

/-- Go `string`. -/
abbrev Str := List Char

/-! ## The `strings` library functions used by the source -/

namespace strings

/-- The function `strings.HasPrefix`. -/
def HasPrefix (s pre : Str) : Bool := pre.isPrefixOf s

/-- The function `strings.HasSuffix`. -/
def HasSuffix (s suf : Str) : Bool := suf.reverse.isPrefixOf s.reverse

/-- The function `strings.TrimPrefix`: `s` without the leading `pre`, or
`s` itself when it does not start with `pre`. -/
def TrimPrefix (s pre : Str) : Str :=
  if HasPrefix s pre then s.drop pre.length else s

/-- The function `strings.TrimSuffix`: `s` without the trailing `suf`, or
`s` itself when it does not end with `suf`. -/
def TrimSuffix (s suf : Str) : Str :=
  if HasSuffix s suf then s.take (s.length - suf.length) else s

/-- The call `strings.Replace(s, old, new, 1)`: the first (leftmost)
occurrence of `old` in `s` is replaced by `new`; `s` is returned unchanged
when `old` does not occur.  An empty `old` matches at the very start. -/
def Replace1 : Str → Str → Str → Str
  | [], old, new => if old = [] then new else []
  | c :: cs, old, new =>
    if old.isPrefixOf (c :: cs) then new ++ (c :: cs).drop old.length
    else c :: Replace1 cs old new

/-- The function `strings.Cut`: the text before and after the first
occurrence of `sep`, or `none` when `sep` does not occur. -/
def Cut : Str → Str → Option (Str × Str)
  | [], sep => if sep = [] then some ([], []) else none
  | c :: cs, sep =>
    if sep.isPrefixOf (c :: cs) then some ([], (c :: cs).drop sep.length)
    else match Cut cs sep with
      | none => none
      | some (before, after) => some (c :: before, after)

/-- The function `strings.SplitN(s, sep, n)` for a non-empty `sep` and
`n ≥ 0` (the two call sites use `"\r\n\r\n", 2` and `" ", 3`): at most `n`
pieces, the last one being the unsplit remainder. -/
def SplitN (s sep : Str) : Nat → List Str
  | 0 => []
  | 1 => [s]
  | n + 2 =>
    match Cut s sep with
    | none => [s]
    | some (before, after) => before :: SplitN after sep (n + 1)

/-- The function `strings.IndexByte`: index of the first `c` in `s`, or
`-1`. -/
def IndexByte : Str → Char → Int
  | [], _ => -1
  | x :: xs, c =>
    if x = c then 0
    else if IndexByte xs c < 0 then -1 else IndexByte xs c + 1

end strings

/-! ## Intruder: data model -/

/-- The struct `mitmproxy.PayloadItem` as `handleRunIntruder` builds it
(the field `Type` is spelled `Type_`, `Type` being reserved). -/
structure PayloadItem where
  ID : Int
  Type_ : Str
  Items : List Str
deriving DecidableEq, Repr

/-- The struct `intruderRequest`. -/
structure intruderRequest where
  ID : Int
  Request : Str
  Payload : List Str
deriving DecidableEq, Repr

/-- The marker delimiter `§` (U+00A7). -/
def sect : Char := '§'

/-- The expression
`strings.TrimPrefix(strings.TrimSuffix(pos, "§"), "§")` of
`generateSniperRequests`. -/
def originalContent (pos : Str) : Str :=
  strings.TrimPrefix (strings.TrimSuffix pos [sect]) [sect]

/-- The list `allPayloads` of `generateSniperRequests` and
`generateBatteringRamRequests`: the items of all payload sets, appended in
order. -/
def allPayloads : List PayloadItem → List Str
  | [] => []
  | item :: rest => item.Items ++ allPayloads rest

/-! ## Intruder: sniper -/

/-- The loop of `generateSniperRequests` that fills `payloadArray`
(`i` is the loop index). -/
def sniperPayloadArray (posIndex : Nat) (processedPayload : Str) :
    Nat → List Str → List Str
  | _, [] => []
  | i, pos :: rest =>
    (if i = posIndex then processedPayload else originalContent pos) ::
      sniperPayloadArray posIndex processedPayload (i + 1) rest

/-- The second loop over `positions` of `generateSniperRequests`: every
position other than `posIndex` is replaced, by text, with its original
content (`i` is the loop index, `r` the request text so far). -/
def sniperRestore (posIndex : Nat) : Nat → List Str → Str → Str
  | _, [], r => r
  | i, pos :: rest, r =>
    sniperRestore posIndex (i + 1) rest
      (if i ≠ posIndex then strings.Replace1 r pos (originalContent pos) else r)

/-- The body of the inner loop of `generateSniperRequests`, after `id++`:
the request built for position `posIndex` (with text `position`) and
`payload`. -/
def sniperRequest (Processing : Str → Str) (rawReq : Str) (positions : List Str)
    (posIndex : Nat) (position : Str) (id : Int) (payload : Str) : intruderRequest :=
  let processedPayload := Processing payload
  let payloadArray := sniperPayloadArray posIndex processedPayload 0 positions
  let r := strings.Replace1 rawReq position processedPayload
  let r := sniperRestore posIndex 0 positions r
  { ID := id, Request := r, Payload := payloadArray }

/-- The inner loop of `generateSniperRequests` (over `allPayloads`); the
state is `(requests, id)`. -/
def sniperPayloadLoop (Processing : Str → Str) (rawReq : Str) (positions : List Str)
    (posIndex : Nat) (position : Str) :
    List Str → List intruderRequest × Int → List intruderRequest × Int
  | [], st => st
  | payload :: rest, (requests, id) =>
    sniperPayloadLoop Processing rawReq positions posIndex position rest
      (requests ++ [sniperRequest Processing rawReq positions posIndex position (id + 1) payload],
        id + 1)

/-- The outer loop of `generateSniperRequests` (over `positions`, with the
index `posIndex`). -/
def sniperPositionLoop (Processing : Str → Str) (rawReq : Str) (positions : List Str)
    (payloads : List Str) :
    Nat → List Str → List intruderRequest × Int → List intruderRequest × Int
  | _, [], st => st
  | posIndex, position :: rest, st =>
    sniperPositionLoop Processing rawReq positions payloads (posIndex + 1) rest
      (sniperPayloadLoop Processing rawReq positions posIndex position payloads st)

/-- The function `generateSniperRequests`.  `Processing` stands for
`mitmproxy.Processing(·, nil)`, which lives outside the files at hand. -/
def generateSniperRequests (Processing : Str → Str) (rawReq : Str) (positions : List Str)
    (payloadItems : List PayloadItem) : List intruderRequest :=
  (sniperPositionLoop Processing rawReq positions (allPayloads payloadItems) 0 positions
    ([], 0)).1

/-! ## Intruder: battering ram -/

/-- The inner loop of `generateBatteringRamRequests`: each position in turn
is replaced, by text, with `payload`. -/
def batteringRamReplace (payload : Str) : List Str → Str → Str
  | [], r => r
  | pos :: rest, r => batteringRamReplace payload rest (strings.Replace1 r pos payload)

/-- The outer loop of `generateBatteringRamRequests` (`i` is the loop
index). -/
def batteringRamLoop (rawReq : Str) (positions : List Str) :
    Nat → List Str → List intruderRequest
  | _, [] => []
  | i, payload :: rest =>
    { ID := (i : Int) + 1, Request := batteringRamReplace payload positions rawReq,
      Payload := [payload] } :: batteringRamLoop rawReq positions (i + 1) rest

/-- The function `generateBatteringRamRequests`. -/
def generateBatteringRamRequests (rawReq : Str) (positions : List Str)
    (payloadItems : List PayloadItem) : List intruderRequest :=
  batteringRamLoop rawReq positions 0 (allPayloads payloadItems)

/-! ## Intruder: pitchfork -/

/-- The loop of `generatePitchforkRequests` that lowers `minLen` over
`payloadItems[1:]`. -/
def pitchforkMinLen : Nat → List PayloadItem → Nat
  | minLen, [] => minLen
  | minLen, item :: rest =>
    pitchforkMinLen (if item.Items.length < minLen then item.Items.length else minLen) rest

/-- The inner loop of `generatePitchforkRequests` for iteration `i`
(`j` is the loop index, the state is `(r, payloads)`).  The read
`payloadItems[j]` is guarded by the source; the read `.Items[i]` is not and
panics when `i` is out of range. -/
def pitchforkInner (payloadItems : List PayloadItem) (i : Nat) :
    Nat → List Str → Str × List Str → Option (Str × List Str)
  | _, [], st => some st
  | j, pos :: rest, (r, payloads) =>
    if h : j < payloadItems.length then
      match payloadItems[j].Items[i]? with
      | none => none
      | some payload =>
        pitchforkInner payloadItems i (j + 1) rest
          (strings.Replace1 r pos payload, payloads ++ [payload])
    else pitchforkInner payloadItems i (j + 1) rest (r, payloads)

/-- The outer loop `for i := 0; i < minLen; i++` of
`generatePitchforkRequests`; the first argument counts the iterations left
(`minLen - i`). -/
def pitchforkLoop (rawReq : Str) (positions : List Str) (payloadItems : List PayloadItem) :
    Nat → Nat → Option (List intruderRequest)
  | 0, _ => some []
  | n + 1, i =>
    match pitchforkInner payloadItems i 0 positions (rawReq, []) with
    | none => none
    | some (r, payloads) =>
      match pitchforkLoop rawReq positions payloadItems n (i + 1) with
      | none => none
      | some requests => some ({ ID := (i : Int) + 1, Request := r, Payload := payloads } :: requests)

/-- The function `generatePitchforkRequests`; `none` is a run-time panic. -/
def generatePitchforkRequests (rawReq : Str) (positions : List Str)
    (payloadItems : List PayloadItem) : Option (List intruderRequest) :=
  match payloadItems with
  | [] => some []
  | first :: rest =>
    pitchforkLoop rawReq positions payloadItems
      (pitchforkMinLen first.Items.length rest) 0

/-- The pitchfork request count in the words of the specification (section
4.6): the minimum of the sizes `|S_i|` over the indices `i < min(k, m)` only,
for `k` payload sets and `m` positions; `none` when there is no such
index. -/
def pitchforkSpecCount (positions : List Str) (payloadItems : List PayloadItem) : Option Nat :=
  match (payloadItems.take positions.length).map (fun item => item.Items.length) with
  | [] => none
  | n :: ns => some (ns.foldl min n)

/-! ## Intruder: cluster bomb -/

/-- Modelled from the spec: `mitmproxy.GenerateCombinations` is not among the
files at hand.  From the specification (section 4.6, cluster bomb): the
Cartesian product of the payload sets in odometer order, the rightmost index
varying fastest; the product of no sets is the single empty combination. -/
def GenerateCombinations : List PayloadItem → List (List Str)
  | [] => [[]]
  | item :: rest =>
    item.Items.flatMap (fun x => (GenerateCombinations rest).map (fun c => x :: c))

/-- The inner loop of `generateClusterBombRequests` (`j` is the loop
index). -/
def clusterBombReplace (combo : List Str) : Nat → List Str → Str → Str
  | _, [], r => r
  | j, pos :: rest, r =>
    clusterBombReplace combo (j + 1) rest
      (if h : j < combo.length then strings.Replace1 r pos combo[j] else r)

/-- The outer loop of `generateClusterBombRequests` (`i` is the loop
index). -/
def clusterBombLoop (rawReq : Str) (positions : List Str) :
    Nat → List (List Str) → List intruderRequest
  | _, [] => []
  | i, combo :: rest =>
    { ID := (i : Int) + 1, Request := clusterBombReplace combo 0 positions rawReq,
      Payload := combo } :: clusterBombLoop rawReq positions (i + 1) rest

/-- The function `generateClusterBombRequests`. -/
def generateClusterBombRequests (rawReq : Str) (positions : List Str)
    (payloadItems : List PayloadItem) : List intruderRequest :=
  clusterBombLoop rawReq positions 0 (GenerateCombinations payloadItems)

/-! ## Intruder: dispatcher -/

/-- The function `generateIntruderRequests`.  The result `none` is a
run-time panic; the Go value `nil` is the empty list (every generator
returns `nil` exactly when it emits no request). -/
def generateIntruderRequests (Processing : Str → Str) (rawReq : Str) (positions : List Str)
    (payloadItems : List PayloadItem) (attackType : Str) : Option (List intruderRequest) :=
  if attackType = "sniper".toList then
    some (generateSniperRequests Processing rawReq positions payloadItems)
  else if attackType = "battering-ram".toList then
    some (generateBatteringRamRequests rawReq positions payloadItems)
  else if attackType = "pitchfork".toList then
    generatePitchforkRequests rawReq positions payloadItems
  else if attackType = "cluster-bomb".toList then
    some (generateClusterBombRequests rawReq positions payloadItems)
  else some []

/-! ## Intruder: markers of a template -/

/-- Modelled from the spec: `mitmproxy.GetPositions` is not among the files at
hand.  From the specification (section 4.5): a marker is a minimal substring
`§…§` whose inside holds no `§`; every occurrence is returned, delimiters
included, in source order; an unpaired `§` is ignored.  The first argument
is the scanner state: `none` outside a marker, `some inner` inside one whose
text so far is `inner`. -/
def scanPositions : Option Str → Str → List Str
  | _, [] => []
  | none, c :: cs =>
    if c = sect then scanPositions (some []) cs else scanPositions none cs
  | some inner, c :: cs =>
    if c = sect then (sect :: inner ++ [sect]) :: scanPositions none cs
    else scanPositions (some (inner ++ [c])) cs

/-- Modelled from the spec: `mitmproxy.GetPositions`, see `scanPositions`. -/
def GetPositions (template : Str) : List Str := scanPositions none template

/-- The specification's `replace_left_to_right` (section 4.6): the template
with the marker occurrence number `i` replaced by `f i inner`, where `inner`
is the text inside that marker; all other text, an unpaired `§` included, is
kept.  The arguments are the number of the next marker and the scanner state
of `scanPositions`. -/
def fillPositions (f : Nat → Str → Str) : Nat → Option Str → Str → Str
  | _, none, [] => []
  | _, some inner, [] => sect :: inner
  | i, none, c :: cs =>
    if c = sect then fillPositions f i (some []) cs else c :: fillPositions f i none cs
  | i, some inner, c :: cs =>
    if c = sect then f i inner ++ fillPositions f (i + 1) none cs
    else fillPositions f i (some (inner ++ [c])) cs

/-- The template with marker `i` replaced by `f i inner`, for every marker. -/
def replaceLeftToRight (f : Nat → Str → Str) (template : Str) : Str :=
  fillPositions f 0 none template

/-! ## DSL context: maps and values -/

/-- A Go map with string keys: an association list.  The functions below
keep at most one binding per key. -/
abbrev GoMap (β : Type) := List (Str × β)

/-- The map read `m[k]` with its presence flag. -/
def mapGet {β : Type} : GoMap β → Str → Option β
  | [], _ => none
  | (k', v) :: rest, k => if k' = k then some v else mapGet rest k

/-- The map write `m[k] = v`. -/
def mapSet {β : Type} : GoMap β → Str → β → GoMap β
  | [], k, v => [(k, v)]
  | (k', v') :: rest, k, v =>
    if k' = k then (k, v) :: rest else (k', v') :: mapSet rest k v

/-- The loop `for k, v := range src { merged[k] = v }`.  Go visits the
bindings of `src` in an unspecified order; the keys of a map are distinct,
so every order gives the same map.  The bindings are written here from the
last to the first. -/
def mapOverlay {β : Type} (merged : GoMap β) : GoMap β → GoMap β
  | [] => merged
  | (k, v) :: rest => mapSet (mapOverlay merged rest) k v

/-- The values an `interface{}` of the DSL context or of a DSL result can
hold; `other` stands for a value of any further dynamic type (a `float64`
result of the evaluator, for instance), given by its printed form. -/
inductive Value where
  | str (s : Str)
  | int (n : Int)
  | bool (b : Bool)
  | strMap (m : GoMap Str)
  | other (printed : Str)
deriving DecidableEq, Repr

/-- The type `map[string]interface{}`. -/
abbrev Context := GoMap Value

/-! ## DSL context: the raw HTTP parser -/

/-- The two library functions of `parseRawHTTP` that depend on the Unicode
tables, `strings.TrimSpace` and `strings.ToLower`.  They are left open:
every statement below holds for whatever they compute. -/
structure TextOps where
  TrimSpace : Str → Str
  ToLower : Str → Str

/-- White space of `strings.TrimSpace` within ASCII. -/
def asciiSpace (c : Char) : Bool :=
  c = ' ' ∨ c = '\t' ∨ c = '\n' ∨ c = '\r' ∨ c = Char.ofNat 11 ∨ c = Char.ofNat 12

/-- What `strings.TrimSpace` and `strings.ToLower` compute on ASCII text;
used to evaluate the parser on concrete ASCII messages. -/
def asciiOps : TextOps where
  TrimSpace := fun s => ((s.dropWhile asciiSpace).reverse.dropWhile asciiSpace).reverse
  ToLower := fun s => s.map Char.toLower

/-- The constant `bufio.MaxScanTokenSize`. -/
def MaxScanTokenSize : Nat := 64 * 1024

/-- Length of a string in bytes (UTF-8). -/
def byteLen : Str → Nat
  | [] => 0
  | c :: cs => c.utf8Size + byteLen cs

/-- The helper `dropCR` of `bufio.ScanLines`: one trailing `\r` is
removed. -/
def dropCR (data : Str) : Str :=
  if data.getLast? = some '\r' then data.dropLast else data

/-- The lines that `scanner.Scan()` / `scanner.Text()` deliver for a
`bufio.Scanner` with the default split function `bufio.ScanLines` and the
default buffer: the input is cut at each `\n`, a trailing `\r` is dropped
from each line, and an empty piece after the last `\n` is no line.  The
scanner stops for good (`Scan` returns false) at the first line of
`MaxScanTokenSize` bytes or more.  The first argument is the text of the
current line read so far. -/
def scanLines : Str → Str → List Str
  | cur, [] =>
    if cur = [] then [] else if MaxScanTokenSize ≤ byteLen cur then [] else [dropCR cur]
  | cur, c :: cs =>
    if c = '\n' then
      if MaxScanTokenSize ≤ byteLen cur then [] else dropCR cur :: scanLines [] cs
    else scanLines (cur ++ [c]) cs

/-- The branch `lineNum == 0` of the scanning loop of `parseRawHTTP`. -/
def parseStartLine (isRequest : Bool) (line : Str) (result : Context) : Context :=
  if isRequest then
    match strings.SplitN line " ".toList 3 with
    | p0 :: p1 :: more =>
      let result := mapSet result "method".toList (Value.str p0)
      let result := mapSet result "path".toList (Value.str p1)
      match more with
      | p2 :: _ => mapSet result "http_version".toList (Value.str p2)
      | [] => result
    | _ => result
  else
    match strings.SplitN line " ".toList 3 with
    | _ :: p1 :: p2 :: _ =>
      let result := mapSet result "status".toList (Value.str p1)
      mapSet result "status_reason".toList (Value.str p2)
    | _ => result

/-- The branch `lineNum != 0` of the scanning loop of `parseRawHTTP`; the
state is `(result, headerMap)`. -/
def parseHeaderLine (ops : TextOps) (line : Str) (st : Context × GoMap Str) :
    Context × GoMap Str :=
  let colonIdx := strings.IndexByte line ':'
  if colonIdx > 0 then
    let key := ops.TrimSpace (line.take colonIdx.toNat)
    let value := ops.TrimSpace (line.drop (colonIdx.toNat + 1))
    let headerMap := mapSet st.2 (ops.ToLower key) value
    let lowerKey := ops.ToLower key
    if lowerKey = "host".toList then
      (mapSet st.1 "host".toList (Value.str value), headerMap)
    else if lowerKey = "content-type".toList then
      (mapSet st.1 "content_type".toList (Value.str value), headerMap)
    else if lowerKey = "content-length".toList then
      (mapSet st.1 "content_length".toList (Value.str value), headerMap)
    else (st.1, headerMap)
  else st

/-- The key under which `parseHeaderLine` stores a header line: the text
before the first `:`, trimmed and lowercased. -/
def headerKey (ops : TextOps) (line : Str) : Str :=
  ops.ToLower (ops.TrimSpace (line.take (strings.IndexByte line ':').toNat))

/-- The value that `parseHeaderLine` stores for a header line: the text
after the first `:`, trimmed. -/
def headerValue (ops : TextOps) (line : Str) : Str :=
  ops.TrimSpace (line.drop ((strings.IndexByte line ':').toNat + 1))

/-- The loop `for scanner.Scan()` of `parseRawHTTP` over the delivered
lines (`lineNum` is the loop counter, the state is `(result, headerMap)`). -/
def parseLines (ops : TextOps) (isRequest : Bool) :
    Nat → List Str → Context × GoMap Str → Context × GoMap Str
  | _, [], st => st
  | lineNum, line :: rest, st =>
    parseLines ops isRequest (lineNum + 1) rest
      (if lineNum = 0 then (parseStartLine isRequest line st.1, st.2)
       else parseHeaderLine ops line st)

/-- The text before the first CRLFCRLF, `parts[0]` of
`strings.SplitN(rawHTTP, "\r\n\r\n", 2)`. -/
def headersBlock (rawHTTP : Str) : Str :=
  (strings.SplitN rawHTTP "\r\n\r\n".toList 2).headD []

/-- The text after the first CRLFCRLF, `parts[1]` when `len(parts) > 1`,
and the empty string otherwise. -/
def bodyBlock (rawHTTP : Str) : Str :=
  match strings.SplitN rawHTTP "\r\n\r\n".toList 2 with
  | _ :: body :: _ => body
  | _ => []

/-- The function `parseRawHTTP`. -/
def parseRawHTTP (ops : TextOps) (rawHTTP : Str) (isRequest : Bool) : Context :=
  if rawHTTP = [] then []
  else
    let result : Context := []
    let result :=
      if isRequest then mapSet result "request".toList (Value.str rawHTTP)
      else mapSet result "response".toList (Value.str rawHTTP)
    let headers := headersBlock rawHTTP
    let body := bodyBlock rawHTTP
    let result :=
      if isRequest then mapSet result "request_body".toList (Value.str body)
      else mapSet result "response_body".toList (Value.str body)
    let st := parseLines ops isRequest 0 (scanLines [] headers) (result, [])
    if isRequest then mapSet st.1 "request_headers".toList (Value.strMap st.2)
    else mapSet st.1 "response_headers".toList (Value.strMap st.2)

/-! ## DSL context: merging and validation -/

/-- Modelled from the spec: the record `db.HTTPHistory` is declared outside
the files at hand.  From the specification (section 3, HistoryRecord) and the
fields the source reads: a 64-bit id, the link `Hid`, and text fields.
`CreatedAt` holds the time stamp as
`CreatedAt.Format("2006-01-02T15:04:05Z07:00")` renders it. -/
structure HTTPHistory where
  ID : Int
  Hid : Int
  Host : Str
  Method : Str
  FullUrl : Str
  Path : Str
  Status : Str
  Length : Str
  ContentType : Str
  MIMEType : Str
  Extension : Str
  Title : Str
  IP : Str
  Note : Str
  Color : Str
  CreatedAt : Str
deriving DecidableEq, Repr

/-- The function `mergeDSLContext`. -/
def mergeDSLContext (summary : HTTPHistory) (requestData responseData : Context) : Context :=
  let merged : Context := []
  let merged := mapSet merged "id".toList (Value.int summary.ID)
  let merged := mapSet merged "url".toList (Value.str summary.FullUrl)
  let merged := mapSet merged "path".toList (Value.str summary.Path)
  let merged := mapSet merged "method".toList (Value.str summary.Method)
  let merged := mapSet merged "host".toList (Value.str summary.Host)
  let merged := mapSet merged "status".toList (Value.str summary.Status)
  let merged := mapSet merged "length".toList (Value.str summary.Length)
  let merged := mapSet merged "content_type".toList (Value.str summary.ContentType)
  let merged := mapSet merged "timestamp".toList (Value.str summary.CreatedAt)
  let merged := mapOverlay merged requestData
  mapOverlay merged responseData

/-- The map literal `mockContext` of `validateDSL`. -/
def mockContext : Context :=
  [ ("id".toList, Value.int 1),
    ("url".toList, Value.str "https://example.com/api/test".toList),
    ("path".toList, Value.str "/api/test".toList),
    ("method".toList, Value.str "GET".toList),
    ("host".toList, Value.str "example.com".toList),
    ("status".toList, Value.str "200".toList),
    ("length".toList, Value.str "1024".toList),
    ("content_type".toList, Value.str "application/json".toList),
    ("timestamp".toList, Value.str "2023-01-01T12:00:00Z".toList),
    ("request".toList,
      Value.str "GET /api/test HTTP/1.1\r\nHost: example.com\r\n\r\n".toList),
    ("request_body".toList, Value.str "test body".toList),
    ("request_headers".toList,
      Value.strMap [("host".toList, "example.com".toList)]),
    ("response".toList,
      Value.str
        "HTTP/1.1 200 OK\r\nContent-Type: application/json\r\n\r\n\x7b\"status\":\"ok\"\x7d".toList),
    ("response_body".toList, Value.str "\x7b\"status\":\"ok\"\x7d".toList),
    ("response_headers".toList,
      Value.strMap [("content-type".toList, "application/json".toList)]),
    ("status_reason".toList, Value.str "OK".toList) ]

/-- The function `validateDSL`: the error, if any, of evaluating the query
against `mockContext`.  `EvalExpr` stands for `dsl.EvalExpr` of the
third-party library. -/
def validateDSL (EvalExpr : Str → Context → Except Str Value) (dslQuery : Str) : Option Str :=
  match EvalExpr dslQuery mockContext with
  | Except.error err => some err
  | Except.ok _ => none

/-- The eighteen recognized keys of the evaluation context (specification,
section 3). -/
def recognizedKeys : List Str :=
  [ "id".toList, "url".toList, "path".toList, "method".toList, "host".toList,
    "status".toList, "length".toList, "content_type".toList, "timestamp".toList,
    "request".toList, "request_body".toList, "request_headers".toList,
    "response".toList, "response_body".toList, "response_headers".toList,
    "status_reason".toList, "http_version".toList, "content_length".toList ]

/-- The nine keys that `mergeDSLContext` takes from the history summary. -/
def summaryKeys : List Str :=
  [ "id".toList, "url".toList, "path".toList, "method".toList, "host".toList,
    "status".toList, "length".toList, "content_type".toList, "timestamp".toList ]

/-- A history summary used to evaluate the context builder on concrete
messages. -/
def sampleSummary : HTTPHistory :=
  { ID := 7, Hid := 1, Host := "example.com".toList, Method := "GET".toList,
    FullUrl := "https://example.com/x".toList, Path := "/x".toList, Status := "200".toList,
    Length := "11".toList, ContentType := "application/json".toList, MIMEType := [],
    Extension := [], Title := [], IP := [], Note := [], Color := [],
    CreatedAt := "2025-06-04T12:00:00+08:00".toList }

/-- The headers mapping stored in a parsed message under `request_headers`
(request) or `response_headers` (response); `none` when the key is absent
or does not hold a mapping. -/
def headersOf (parsed : Context) (isRequest : Bool) : Option (GoMap Str) :=
  match mapGet parsed (if isRequest then "request_headers".toList else "response_headers".toList) with
  | some (Value.strMap m) => some m
  | _ => none

/-- The summary field that `mergeDSLContext` writes for a key, in the words
of the specification (section 4.2): the nine summary fields `id`, `url`,
`path`, `method`, `host`, `status`, `length`, `content_type`, `timestamp`;
`none` for any other key. -/
def summaryField (summary : HTTPHistory) (k : Str) : Option Value :=
  mapGet
    [ ("id".toList, Value.int summary.ID),
      ("url".toList, Value.str summary.FullUrl),
      ("path".toList, Value.str summary.Path),
      ("method".toList, Value.str summary.Method),
      ("host".toList, Value.str summary.Host),
      ("status".toList, Value.str summary.Status),
      ("length".toList, Value.str summary.Length),
      ("content_type".toList, Value.str summary.ContentType),
      ("timestamp".toList, Value.str summary.CreatedAt) ] k

/-- The separator `"\r\n\r\n"` between the headers block and the body. -/
def CRLFCRLF : Str := "\r\n\r\n".toList

/-! ## DSL query -/

/-- The two errors of `evaluateDSL`: the error of `dsl.EvalExpr`, passed on,
and `fmt.Errorf("DSL结果不是布尔值: %v", result)` for a result that is not a
`bool`. -/
inductive DSLError where
  | eval (err : Str)
  | notBool (result : Value)
deriving DecidableEq, Repr

/-- The function `evaluateDSL`; the Go result `(bool, error)` is a pair
whose second component is `none` for a `nil` error. `EvalExpr` stands for
`dsl.EvalExpr` of the third-party library. -/
def evaluateDSL (EvalExpr : Str → Context → Except Str Value) (dslQuery : Str)
    (context : Context) : Bool × Option DSLError :=
  match EvalExpr dslQuery context with
  | Except.error err => (false, some (DSLError.eval err))
  | Except.ok (Value.bool resultBool) => (resultBool, none)
  | Except.ok result => (false, some (DSLError.notBool result))

/-- The struct `mitmproxy.HTTPHistory`, with the fields that
`dbHistoryToMitmHistory` fills. -/
structure mitmproxy.HTTPHistory where
  Id : Int
  Host : Str
  Method : Str
  FullUrl : Str
  Path : Str
  Status : Str
  Length : Str
  ContentType : Str
  MIMEType : Str
  Extension : Str
  Title : Str
  IP : Str
  Note : Str
  Color : Str
  Timestamp : Str
deriving DecidableEq, Repr

/-- The function `dbHistoryToMitmHistory`. -/
def dbHistoryToMitmHistory (h : HTTPHistory) : mitmproxy.HTTPHistory :=
  { Id := h.ID, Host := h.Host, Method := h.Method, FullUrl := h.FullUrl, Path := h.Path,
    Status := h.Status, Length := h.Length, ContentType := h.ContentType,
    MIMEType := h.MIMEType, Extension := h.Extension, Title := h.Title, IP := h.IP,
    Note := h.Note, Color := h.Color, Timestamp := h.CreatedAt }

/-- The store as `QueryHistoryByDSL` sees it: the result of
`db.GetAllHistory("", "", 0, 0)` and, for a link id, the raw request and
raw response texts of `db.GetTraffic` (`none` for a `nil` pointer). -/
structure Store where
  GetAllHistory : Except Str (List HTTPHistory)
  GetTraffic : Int → Option Str × Option Str

/-- The two errors of `QueryHistoryByDSL`: a validation error
(`"DSL语法错误: %w"`) and a store error (`"查询数据库失败: %w"`). -/
inductive QueryError where
  | validation (err : Str)
  | store (err : Str)
deriving DecidableEq, Repr

/-- The context that `QueryHistoryByDSL` builds for one record. -/
def recordContext (ops : TextOps) (GetTraffic : Int → Option Str × Option Str)
    (history : HTTPHistory) : Context :=
  let traffic := GetTraffic history.Hid
  let requestRaw := traffic.1.getD []
  let responseRaw := traffic.2.getD []
  let requestData := parseRawHTTP ops requestRaw true
  let responseData := parseRawHTTP ops responseRaw false
  mergeDSLContext history requestData responseData

/-- The loop of `QueryHistoryByDSL` over the records of the store. The
first component is `matchedHistory`; the second one records the link ids
passed to `db.GetTraffic`, one for each record that is parsed and
evaluated. -/
def queryLoop (EvalExpr : Str → Context → Except Str Value) (ops : TextOps)
    (GetTraffic : Int → Option Str × Option Str) (dslQuery : Str) :
    List HTTPHistory → List mitmproxy.HTTPHistory × List Int
  | [] => ([], [])
  | history :: rest =>
    if history.Hid = 0 then queryLoop EvalExpr ops GetTraffic dslQuery rest
    else
      let dslContext := recordContext ops GetTraffic history
      let later := queryLoop EvalExpr ops GetTraffic dslQuery rest
      match evaluateDSL EvalExpr dslQuery dslContext with
      | (_, some _) => (later.1, history.Hid :: later.2)
      | (matched, none) =>
        (if matched then dbHistoryToMitmHistory history :: later.1 else later.1,
          history.Hid :: later.2)

/-- The call `sort.Slice(matchedHistory, less)` with
`less(i, j) = matchedHistory[i].Id < matchedHistory[j].Id`: the records in
ascending order of `Id`. Go leaves the order among records of equal `Id`
open; the order chosen here keeps them as they were, and no statement below
depends on it. -/
def sortById (matchedHistory : List mitmproxy.HTTPHistory) : List mitmproxy.HTTPHistory :=
  matchedHistory.insertionSort (fun a b => a.Id ≤ b.Id)

/-- The function `QueryHistoryByDSL`. -/
def QueryHistoryByDSL (EvalExpr : Str → Context → Except Str Value) (ops : TextOps)
    (store : Store) (dslQuery : Str) : Except QueryError (List mitmproxy.HTTPHistory) :=
  if dslQuery = [] then Except.ok []
  else
    match validateDSL EvalExpr dslQuery with
    | some err => Except.error (QueryError.validation err)
    | none =>
      match store.GetAllHistory with
      | Except.error err => Except.error (QueryError.store err)
      | Except.ok histories =>
        Except.ok (sortById (queryLoop EvalExpr ops store.GetTraffic dslQuery histories).1)

/-! ## Intruder: dispatch and the tool handler -/

/-- The constant `maxIntruderRequests`. -/
def maxIntruderRequests : Nat := 1000

/-- The constant `intruderConcurrency`. -/
def intruderConcurrency : Nat := 20

/-- The struct `intruderResult`. -/
structure intruderResult where
  ID : Int
  Payload : List Str
  Status : Int
  Length : Int
  TimeMs : Int
deriving DecidableEq, Repr

/-- The zero value of `intruderResult`, which `make` puts in every slot. -/
def intruderResult.zero : intruderResult :=
  { ID := 0, Payload := [], Status := 0, Length := 0, TimeMs := 0 }

/-- What one call `httpx.Raw(r.Request, target)` yields, with the measured
duration in milliseconds: the status code and content length of the
response, or an error. -/
structure RawOutcome where
  response : Except Str (Int × Int)
  durationMs : Int

/-- The arguments `(idx, r)` bound when `executeIntruderRequests` starts a
goroutine with `go func(idx int, r intruderRequest) ... (i, ir)`. -/
structure intruderTask where
  idx : Nat
  r : intruderRequest
deriving DecidableEq, Repr

/-- The result that a goroutine of `executeIntruderRequests` builds for
its request, given the outcome of its HTTP call. -/
def taskResult (outcome : RawOutcome) (r : intruderRequest) : intruderResult :=
  match outcome.response with
  | Except.error _ =>
    { ID := r.ID, Payload := r.Payload, Status := 0, Length := 0, TimeMs := outcome.durationMs }
  | Except.ok resp =>
    { ID := r.ID, Payload := r.Payload, Status := resp.1, Length := resp.2,
      TimeMs := outcome.durationMs }

/-- The launching loop of `executeIntruderRequests` (`i` is the loop
index): the goroutines started, in order. `cancelled i` tells whether
`ctx.Done()` is ready when iteration `i` polls it; the loop then stops and
starts no further goroutine. -/
def launchLoop (cancelled : Nat → Bool) : Nat → List intruderRequest → List intruderTask
  | _, [] => []
  | i, ir :: rest =>
    if cancelled i then [] else { idx := i, r := ir } :: launchLoop cancelled (i + 1) rest

/-- The one write `results[idx] = res` of a goroutine to the shared slice.
`Raw idx request target` is the outcome of the HTTP call of that
goroutine. -/
def completeTask (Raw : Nat → Str → Str → RawOutcome) (target : Str)
    (results : List intruderResult) (t : intruderTask) : List intruderResult :=
  results.set t.idx (taskResult (Raw t.idx t.r.Request target) t.r)

/-- The function `executeIntruderRequests`: the slice `results` is made
with one zero slot per request, the goroutines of `launchLoop` are started,
and the function returns after `wg.Wait()`, when each of them has written
its slot. `schedule` is the order in which the goroutines write; it is any
reordering of the goroutines started, the semaphore of size
`intruderConcurrency` only limiting how many run at a time. -/
def executeIntruderRequests (Raw : Nat → Str → Str → RawOutcome) (target : Str)
    (requests : List intruderRequest) (schedule : List intruderTask) : List intruderResult :=
  schedule.foldl (completeTask Raw target) (List.replicate requests.length intruderResult.zero)

/-- The error results of `handleRunIntruder`, by message. -/
inductive ToolError where
  | targetRequired
  | rawRequestRequired
  | payloadsRequired
  | attackTypeRequired
  | invalidPayloadsJSON (err : Str)
  | payloadsEmpty
  | noPositions
  | unsupportedAttackType (attackType : Str)
  | tooManyCombinations (count : Nat) (maximum : Nat)
deriving DecidableEq, Repr

/-- The result of a tool call: `errorResult(...)` or `jsonResult(results)`. -/
inductive CallToolResult where
  | error (e : ToolError)
  | json (results : List intruderResult)
deriving DecidableEq, Repr

/-- The loop of `handleRunIntruder` that builds `payloadItems` (`i` is the
loop index). -/
def buildPayloadItems : Nat → List (List Str) → List PayloadItem
  | _, [] => []
  | i, set :: rest =>
    { ID := (i : Int) + 1, Type_ := "simple".toList, Items := set } ::
      buildPayloadItems (i + 1) rest

/-- The function `handleRunIntruder`. `req` gives the string arguments of
the call (`req.RequireString`), `parseJSON` stands for `json.Unmarshal`
into a `[][]string`, and `execute target requests` for the slice that the
call `executeIntruderRequests(ctx, target, requests)` returns. The result
is `none` for a run-time panic; its second component records the requests
handed to `executeIntruderRequests`, and is empty when that function is not
called. -/
def handleRunIntruder (Processing : Str → Str)
    (parseJSON : Str → Except Str (List (List Str)))
    (execute : Str → List intruderRequest → List intruderResult)
    (req : Str → Option Str) : Option (CallToolResult × List intruderRequest) :=
  match req "target".toList with
  | none => some (CallToolResult.error ToolError.targetRequired, [])
  | some target =>
  match req "raw_request".toList with
  | none => some (CallToolResult.error ToolError.rawRequestRequired, [])
  | some rawRequest =>
  match req "payloads".toList with
  | none => some (CallToolResult.error ToolError.payloadsRequired, [])
  | some payloadsStr =>
  match req "attack_type".toList with
  | none => some (CallToolResult.error ToolError.attackTypeRequired, [])
  | some attackType =>
  match parseJSON payloadsStr with
  | Except.error parseErr =>
    some (CallToolResult.error (ToolError.invalidPayloadsJSON parseErr), [])
  | Except.ok payloadSets =>
  if payloadSets.length = 0 then some (CallToolResult.error ToolError.payloadsEmpty, [])
  else
    let payloadItems := buildPayloadItems 0 payloadSets
    let positions := GetPositions rawRequest
    if positions.length = 0 then some (CallToolResult.error ToolError.noPositions, [])
    else
      match generateIntruderRequests Processing rawRequest positions payloadItems attackType with
      | none => none
      | some requests =>
        if requests = [] then
          some (CallToolResult.error (ToolError.unsupportedAttackType attackType), [])
        else if requests.length > maxIntruderRequests then
          some (CallToolResult.error
            (ToolError.tooManyCombinations requests.length maxIntruderRequests), [])
        else
          some (CallToolResult.json (execute target requests), requests)

/-- The arguments of a `run_intruder` call, as `req.RequireString` reads
them. -/
def intruderArgs (target rawRequest payloads attackType : Str) : Str → Option Str :=
  fun name =>
    if name = "target".toList then some target
    else if name = "raw_request".toList then some rawRequest
    else if name = "payloads".toList then some payloads
    else if name = "attack_type".toList then some attackType
    else none

/-! # Theorems -/

/-! ## Lemmas on the library functions -/

theorem replace1_at_marker (pre tl new rest : Str) (hpre : sect ∉ pre) :
    strings.Replace1 (pre ++ (sect :: tl) ++ rest) (sect :: tl) new = pre ++ new ++ rest := by
  induction pre with
  | nil =>
    simp [strings.Replace1]
  | cons c pre ih =>
    have hc : c ≠ sect := fun h => hpre (by simp [h])
    have hp : sect ∉ pre := fun h => hpre (by simp [h])
    simp [strings.Replace1, List.isPrefixOf, hc, Ne.symm hc]
    simpa using ih hp

theorem allPayloads_length (payloadItems : List PayloadItem) :
    (allPayloads payloadItems).length = (payloadItems.map (fun item => item.Items.length)).sum := by
  induction payloadItems with
  | nil => rfl
  | cons item rest ih => simp [allPayloads, ih]

/-! ## Battering ram -/

theorem batteringRamReplace_scan (u : Str) (hu : sect ∉ u) :
    ∀ (s : Str) (i : Nat) (pre : Str), sect ∉ pre →
      (batteringRamReplace u (scanPositions none s) (pre ++ s)
          = pre ++ fillPositions (fun _ _ => u) i none s) ∧
      (∀ inner : Str,
        batteringRamReplace u (scanPositions (some inner) s) (pre ++ sect :: inner ++ s)
          = pre ++ fillPositions (fun _ _ => u) i (some inner) s) := by
  intro s
  induction s with
  | nil =>
    intro i pre _
    simp [scanPositions, batteringRamReplace, fillPositions]
  | cons c cs ih =>
    intro i pre hpre
    by_cases hc : c = sect
    · subst hc
      refine ⟨?_, ?_⟩
      · have h := (ih i pre hpre).2 []
        simpa [scanPositions, fillPositions] using h
      · intro inner
        have hpu : sect ∉ pre ++ u := by simp [hpre, hu]
        have h := (ih (i + 1) (pre ++ u) hpu).1
        have hr := replace1_at_marker pre (inner ++ [sect]) u cs hpre
        simp only [scanPositions, fillPositions, if_true, batteringRamReplace, List.cons_append]
        have e : pre ++ sect :: inner ++ sect :: cs = pre ++ sect :: (inner ++ [sect]) ++ cs := by
          simp
        rw [e, hr, h]
        simp
    · refine ⟨?_, ?_⟩
      · have hpc : sect ∉ pre ++ [c] := by simp [hpre, Ne.symm hc]
        have h := (ih i (pre ++ [c]) hpc).1
        simpa [scanPositions, fillPositions, hc] using h
      · intro inner
        have h := (ih i pre hpre).2 (inner ++ [c])
        simpa [scanPositions, fillPositions, hc] using h

theorem batteringRamReplace_template (u : Str) (hu : sect ∉ u) (template : Str) :
    batteringRamReplace u (GetPositions template) template
      = replaceLeftToRight (fun _ _ => u) template := by
  have h := (batteringRamReplace_scan u hu template 0 [] (by simp)).1
  simpa [GetPositions, replaceLeftToRight] using h

theorem batteringRamLoop_getElem? (rawReq : Str) (positions : List Str) :
    ∀ (payloads : List Str) (i j : Nat),
      (batteringRamLoop rawReq positions i payloads)[j]?
        = payloads[j]?.map (fun u =>
            { ID := (i : Int) + (j : Int) + 1,
              Request := batteringRamReplace u positions rawReq, Payload := [u] }) := by
  intro payloads
  induction payloads with
  | nil => intro i j; simp [batteringRamLoop]
  | cons u us ih =>
    intro i j
    cases j with
    | zero => simp [batteringRamLoop]
    | succ j =>
      simp only [batteringRamLoop, List.getElem?_cons_succ, ih (i + 1) j]
      cases us[j]? with
      | none => rfl
      | some v =>
        simp only [Option.map_some', Option.some.injEq, intruderRequest.mk.injEq, and_true]
        push_cast
        ring

theorem batteringRamLoop_length (rawReq : Str) (positions : List Str) :
    ∀ (payloads : List Str) (i : Nat),
      (batteringRamLoop rawReq positions i payloads).length = payloads.length := by
  intro payloads
  induction payloads with
  | nil => intro i; rfl
  | cons u us ih => intro i; simp [batteringRamLoop, ih]

/-! ## Sniper -/

theorem originalContent_marker (inner : Str) :
    originalContent (sect :: (inner ++ [sect])) = inner := by
  have h1 : strings.TrimSuffix (sect :: (inner ++ [sect])) [sect] = sect :: inner := by
    simp [strings.TrimSuffix, strings.HasSuffix, List.isPrefixOf]
  simp [originalContent, h1, strings.TrimPrefix, strings.HasPrefix, List.isPrefixOf]

theorem sniperPayloadArray_length (posIndex : Nat) (v : Str) :
    ∀ (positions : List Str) (i : Nat),
      (sniperPayloadArray posIndex v i positions).length = positions.length := by
  intro positions
  induction positions with
  | nil => intro i; rfl
  | cons pos rest ih => intro i; simp [sniperPayloadArray, ih]

theorem sniperPayloadArray_getElem? (posIndex : Nat) (v : Str) :
    ∀ (positions : List Str) (i k : Nat),
      (sniperPayloadArray posIndex v i positions)[k]?
        = positions[k]?.map (fun pos => if i + k = posIndex then v else originalContent pos) := by
  intro positions
  induction positions with
  | nil => intro i k; simp [sniperPayloadArray]
  | cons pos rest ih =>
    intro i k
    cases k with
    | zero => simp [sniperPayloadArray]
    | succ k =>
      simp only [sniperPayloadArray, List.getElem?_cons_succ, ih (i + 1) k]
      have e : i + 1 + k = i + (k + 1) := by omega
      rw [e]

theorem sniperPayloadLoop_spec (Processing : Str → Str) (rawReq : Str) (positions : List Str)
    (posIndex : Nat) (position : Str) :
    ∀ (payloads : List Str) (requests : List intruderRequest) (id : Int),
      ∃ added : List intruderRequest,
        sniperPayloadLoop Processing rawReq positions posIndex position payloads (requests, id)
          = (requests ++ added, id + payloads.length) ∧
        added.length = payloads.length ∧
        ∀ (j : Nat) (u : Str), payloads[j]? = some u →
          added[j]? = some
            (sniperRequest Processing rawReq positions posIndex position (id + j + 1) u) := by
  intro payloads
  induction payloads with
  | nil =>
    intro requests id
    exact ⟨[], by simp [sniperPayloadLoop], rfl, by simp⟩
  | cons u us ih =>
    intro requests id
    obtain ⟨added, h1, h2, h3⟩ :=
      ih (requests ++ [sniperRequest Processing rawReq positions posIndex position (id + 1) u])
        (id + 1)
    refine ⟨sniperRequest Processing rawReq positions posIndex position (id + 1) u :: added,
      ?_, by simp [h2], ?_⟩
    · simp only [sniperPayloadLoop, h1, List.append_assoc, List.singleton_append,
        List.length_cons, Prod.mk.injEq, true_and]
      push_cast
      ring
    · intro j v hj
      cases j with
      | zero =>
        simp only [List.getElem?_cons_zero, Option.some.injEq] at hj
        subst hj
        simp
      | succ j =>
        simp only [List.getElem?_cons_succ] at hj ⊢
        rw [h3 j v hj]
        congr 2
        push_cast
        ring

theorem sniperPositionLoop_spec (Processing : Str → Str) (rawReq : Str) (positions : List Str)
    (payloads : List Str) :
    ∀ (rest : List Str) (posIndex : Nat) (requests : List intruderRequest) (id : Int),
      ∃ added : List intruderRequest,
        sniperPositionLoop Processing rawReq positions payloads posIndex rest (requests, id)
          = (requests ++ added, id + (rest.length * payloads.length : Nat)) ∧
        added.length = rest.length * payloads.length ∧
        ∀ (i j : Nat) (position u : Str), rest[i]? = some position → payloads[j]? = some u →
          added[i * payloads.length + j]? = some
            (sniperRequest Processing rawReq positions (posIndex + i) position
              (id + (i * payloads.length + j : Nat) + 1) u) := by
  intro rest
  induction rest with
  | nil =>
    intro posIndex requests id
    exact ⟨[], by simp [sniperPositionLoop], by simp, by simp⟩
  | cons pos rest ih =>
    intro posIndex requests id
    obtain ⟨a1, h1, h2, h3⟩ :=
      sniperPayloadLoop_spec Processing rawReq positions posIndex pos payloads requests id
    obtain ⟨a2, k1, k2, k3⟩ := ih (posIndex + 1) (requests ++ a1) (id + payloads.length)
    refine ⟨a1 ++ a2, ?_, ?_, ?_⟩
    · simp only [sniperPositionLoop, h1, k1, List.append_assoc, List.length_cons,
        Prod.mk.injEq, true_and]
      push_cast
      ring
    · simp only [List.length_append, h2, k2, List.length_cons]
      ring
    · intro i j position u hi hj
      have hjlt : j < payloads.length := by
        rcases List.getElem?_eq_some.1 hj with ⟨h, _⟩
        exact h
      cases i with
      | zero =>
        simp only [List.getElem?_cons_zero, Option.some.injEq] at hi
        subst hi
        have hlt : 0 * payloads.length + j < a1.length := by omega
        rw [List.getElem?_append_left hlt]
        simp only [Nat.zero_mul, Nat.zero_add, Nat.add_zero]
        exact h3 j u hj
      | succ i =>
        simp only [List.getElem?_cons_succ] at hi
        have hge : a1.length ≤ (i + 1) * payloads.length + j := by
          rw [h2, Nat.succ_mul]; omega
        rw [List.getElem?_append_right hge]
        have e : (i + 1) * payloads.length + j - a1.length = i * payloads.length + j := by
          rw [h2, Nat.succ_mul]; omega
        rw [e, k3 i j position u hi hj]
        congr 2
        · omega
        · push_cast
          ring

theorem sniperPayloadLoop_ids (Processing : Str → Str) (rawReq : Str) (positions : List Str)
    (posIndex : Nat) (position : Str) :
    ∀ (payloads : List Str) (st : List intruderRequest × Int),
      (st.2 = (st.1.length : Int) ∧
        ∀ (k : Nat) (req : intruderRequest), st.1[k]? = some req → req.ID = (k : Int) + 1) →
      ((sniperPayloadLoop Processing rawReq positions posIndex position payloads st).2
          = ((sniperPayloadLoop Processing rawReq positions posIndex position payloads st).1.length
              : Int) ∧
        ∀ (k : Nat) (req : intruderRequest),
          (sniperPayloadLoop Processing rawReq positions posIndex position payloads st).1[k]?
              = some req → req.ID = (k : Int) + 1) := by
  intro payloads
  induction payloads with
  | nil => intro st h; simpa [sniperPayloadLoop] using h
  | cons u us ih =>
    intro st h
    obtain ⟨requests, id⟩ := st
    simp only [sniperPayloadLoop]
    apply ih
    obtain ⟨h1, h2⟩ := h
    simp only at h1 h2
    refine ⟨by simp [h1], ?_⟩
    intro k req hk
    simp only at hk
    by_cases hlt : k < requests.length
    · rw [List.getElem?_append_left hlt] at hk
      exact h2 k req hk
    · rw [List.getElem?_append_right (by omega)] at hk
      have hk0 : k - requests.length = 0 := by
        by_contra hne
        have : 1 ≤ k - requests.length := by omega
        simp [List.getElem?_eq_none, this] at hk
      rw [hk0] at hk
      simp only [List.getElem?_cons_zero, Option.some.injEq] at hk
      subst hk
      have : k = requests.length := by omega
      simp [sniperRequest, h1, this]

theorem sniperPositionLoop_ids (Processing : Str → Str) (rawReq : Str) (positions : List Str)
    (payloads : List Str) :
    ∀ (rest : List Str) (posIndex : Nat) (st : List intruderRequest × Int),
      (st.2 = (st.1.length : Int) ∧
        ∀ (k : Nat) (req : intruderRequest), st.1[k]? = some req → req.ID = (k : Int) + 1) →
      ∀ (k : Nat) (req : intruderRequest),
        (sniperPositionLoop Processing rawReq positions payloads posIndex rest st).1[k]?
            = some req → req.ID = (k : Int) + 1 := by
  intro rest
  induction rest with
  | nil => intro posIndex st h; simpa [sniperPositionLoop] using h.2
  | cons pos rest ih =>
    intro posIndex st h
    simp only [sniperPositionLoop]
    exact ih (posIndex + 1) _
      (sniperPayloadLoop_ids Processing rawReq positions posIndex pos payloads st h)

/-! ## Pitchfork -/

theorem pitchforkMinLen_le (rest : List PayloadItem) :
    ∀ m : Nat, pitchforkMinLen m rest ≤ m ∧
      (∀ item ∈ rest, pitchforkMinLen m rest ≤ item.Items.length) ∧
      (pitchforkMinLen m rest = m ∨ ∃ item ∈ rest, pitchforkMinLen m rest = item.Items.length) := by
  induction rest with
  | nil => intro m; simp [pitchforkMinLen]
  | cons item rest ih =>
    intro m
    simp only [pitchforkMinLen]
    by_cases h : item.Items.length < m
    · obtain ⟨h1, h2, h3⟩ := ih item.Items.length
      simp only [h, if_true]
      refine ⟨by omega, ?_, ?_⟩
      · intro it hit
        rcases List.mem_cons.1 hit with e | e
        · subst e; exact h1
        · exact h2 it e
      · right
        rcases h3 with e | ⟨it, hit, e⟩
        · exact ⟨item, by simp, e⟩
        · exact ⟨it, by simp [hit], e⟩
    · obtain ⟨h1, h2, h3⟩ := ih m
      simp only [h, if_false]
      refine ⟨h1, ?_, ?_⟩
      · intro it hit
        rcases List.mem_cons.1 hit with e | e
        · subst e; omega
        · exact h2 it e
      · rcases h3 with e | ⟨it, hit, e⟩
        · exact Or.inl e
        · exact Or.inr ⟨it, by simp [hit], e⟩

theorem pitchforkInner_some (payloadItems : List PayloadItem) (i : Nat)
    (hi : ∀ item ∈ payloadItems, i < item.Items.length) :
    ∀ (positions : List Str) (j : Nat) (st : Str × List Str),
      ∃ st', pitchforkInner payloadItems i j positions st = some st' := by
  intro positions
  induction positions with
  | nil => intro j st; exact ⟨st, by simp [pitchforkInner]⟩
  | cons pos rest ih =>
    intro j st
    obtain ⟨r, payloads⟩ := st
    by_cases h : j < payloadItems.length
    · have hm : payloadItems[j] ∈ payloadItems := List.getElem_mem h
      have hlt := hi _ hm
      simp only [pitchforkInner, h, dite_true, List.getElem?_eq_getElem hlt]
      exact ih _ _
    · simp only [pitchforkInner, h, dite_false]
      exact ih _ _

theorem pitchforkLoop_spec (rawReq : Str) (positions : List Str)
    (payloadItems : List PayloadItem) :
    ∀ (n i : Nat), (∀ item ∈ payloadItems, i + n ≤ item.Items.length) →
      ∃ requests, pitchforkLoop rawReq positions payloadItems n i = some requests ∧
        requests.length = n ∧
        ∀ (t : Nat) (req : intruderRequest), requests[t]? = some req →
          req.ID = (i : Int) + (t : Int) + 1 := by
  intro n
  induction n with
  | zero => intro i _; exact ⟨[], by simp [pitchforkLoop], rfl, by simp⟩
  | succ n ih =>
    intro i h
    obtain ⟨st, hst⟩ := pitchforkInner_some payloadItems i
      (fun item hit => by have := h item hit; omega) positions 0 (rawReq, [])
    obtain ⟨requests, h1, h2, h3⟩ := ih (i + 1) (fun item hit => by have := h item hit; omega)
    obtain ⟨r, payloads⟩ := st
    refine ⟨{ ID := (i : Int) + 1, Request := r, Payload := payloads } :: requests, ?_, ?_, ?_⟩
    · simp [pitchforkLoop, hst, h1]
    · simp [h2]
    · intro t req ht
      cases t with
      | zero =>
        simp only [List.getElem?_cons_zero, Option.some.injEq] at ht
        subst ht
        simp
      | succ t =>
        simp only [List.getElem?_cons_succ] at ht
        rw [h3 t req ht]
        push_cast
        ring

/-! ## Cluster bomb -/

theorem clusterBombLoop_payloads (rawReq : Str) (positions : List Str) :
    ∀ (combinations : List (List Str)) (i : Nat),
      (clusterBombLoop rawReq positions i combinations).map (fun r => r.Payload)
        = combinations := by
  intro combinations
  induction combinations with
  | nil => intro i; rfl
  | cons c rest ih => intro i; simp [clusterBombLoop, ih]

theorem clusterBombLoop_ids (rawReq : Str) (positions : List Str) :
    ∀ (combinations : List (List Str)) (i t : Nat) (req : intruderRequest),
      (clusterBombLoop rawReq positions i combinations)[t]? = some req →
        req.ID = (i : Int) + (t : Int) + 1 := by
  intro combinations
  induction combinations with
  | nil => intro i t req h; simp [clusterBombLoop] at h
  | cons c rest ih =>
    intro i t req h
    cases t with
    | zero =>
      simp only [clusterBombLoop, List.getElem?_cons_zero, Option.some.injEq] at h
      subst h
      simp
    | succ t =>
      simp only [clusterBombLoop, List.getElem?_cons_succ] at h
      rw [ih (i + 1) t req h]
      push_cast
      ring

theorem GenerateCombinations_length (payloadItems : List PayloadItem) :
    (GenerateCombinations payloadItems).length
      = (payloadItems.map (fun item => item.Items.length)).prod := by
  induction payloadItems with
  | nil => rfl
  | cons item rest ih =>
    simp only [GenerateCombinations, List.length_flatMap, List.map_cons, List.prod_cons]
    have : (List.length ∘ fun x => List.map (fun c => x :: c) (GenerateCombinations rest))
        = fun _ => (GenerateCombinations rest).length := by
      funext x; simp
    rw [this, ih]
    simp [List.map_const', List.sum_replicate, Nat.mul_comm]

theorem mem_GenerateCombinations (payloadItems : List PayloadItem) :
    ∀ c : List Str, c ∈ GenerateCombinations payloadItems ↔
      List.Forall₂ (fun x item => x ∈ PayloadItem.Items item) c payloadItems := by
  induction payloadItems with
  | nil => intro c; simp [GenerateCombinations]
  | cons item rest ih =>
    intro c
    simp only [GenerateCombinations, List.mem_flatMap, List.mem_map]
    constructor
    · rintro ⟨x, hx, c', hc', rfl⟩
      exact List.Forall₂.cons hx ((ih c').1 hc')
    · intro h
      cases h with
      | cons hx hrest => exact ⟨_, hx, _, (ih _).2 hrest, rfl⟩

theorem GenerateCombinations_nodup (payloadItems : List PayloadItem)
    (h : ∀ item ∈ payloadItems, item.Items.Nodup) :
    (GenerateCombinations payloadItems).Nodup := by
  induction payloadItems with
  | nil => simp [GenerateCombinations]
  | cons item rest ih =>
    have hrest := ih (fun it hit => h it (by simp [hit]))
    have hitem : item.Items.Nodup := h item (by simp)
    simp only [GenerateCombinations, List.nodup_flatMap]
    refine ⟨?_, ?_⟩
    · intro x _
      exact hrest.map (fun a b hab => by simpa using hab)
    · refine hitem.imp ?_
      intro a b hab
      simp only [Function.onFun, List.disjoint_left, List.mem_map]
      rintro c ⟨c1, _, rfl⟩ ⟨c2, _, h2⟩
      simp only [List.cons.injEq] at h2
      exact hab h2.1.symm

theorem flatMap_block_getElem? {α β : Type} (l : List α) (g : α → List β) (R : Nat)
    (hpos : 0 < R) (hR : ∀ a ∈ l, (g a).length = R) :
    ∀ p : Nat, (l.flatMap g)[p]? = (l[p / R]?).bind (fun a => (g a)[p % R]?) := by
  induction l with
  | nil => intro p; simp
  | cons a l ih =>
    intro p
    have ha : (g a).length = R := hR a (by simp)
    have ih' := ih (fun b hb => hR b (by simp [hb]))
    simp only [List.flatMap_cons]
    by_cases hp : p < R
    · rw [List.getElem?_append_left (by omega)]
      simp [Nat.div_eq_of_lt hp, Nat.mod_eq_of_lt hp]
    · rw [List.getElem?_append_right (by omega), ha, ih' (p - R)]
      have e1 : p / R = (p - R) / R + 1 := by
        have : p = (p - R) + R := by omega
        conv_lhs => rw [this]
        exact Nat.add_div_right _ hpos
      have e2 : p % R = (p - R) % R := by
        have : p = (p - R) + R := by omega
        conv_lhs => rw [this]
        exact Nat.add_mod_right _ _
      rw [e1, e2]
      simp

theorem prod_lengths_split :
    ∀ (l : List PayloadItem) (j : Nat) (item : PayloadItem), l[j]? = some item →
      ∃ A : Nat, (l.map (fun it => it.Items.length)).prod
        = ((l.drop (j + 1)).map (fun it => it.Items.length)).prod * (A * item.Items.length) := by
  intro l
  induction l with
  | nil => intro j item h; simp at h
  | cons a l ih =>
    intro j item h
    cases j with
    | zero =>
      simp only [List.getElem?_cons_zero, Option.some.injEq] at h
      subst h
      exact ⟨1, by simp [Nat.mul_comm]⟩
    | succ j =>
      simp only [List.getElem?_cons_succ] at h
      obtain ⟨A, hA⟩ := ih j item h
      refine ⟨a.Items.length * A, ?_⟩
      simp only [List.map_cons, List.prod_cons, List.drop_succ_cons, hA]
      ring

theorem odometer_digit (p D A n : Nat) : p % (D * (A * n)) / D % n = p / D % n := by
  rw [Nat.mod_mul_right_div_self, Nat.mod_mul_left_mod]

theorem GenerateCombinations_getElem? :
    ∀ (payloadItems : List PayloadItem) (p : Nat),
      p < (payloadItems.map (fun item => item.Items.length)).prod →
      ∃ combo : List Str, (GenerateCombinations payloadItems)[p]? = some combo ∧
        combo.length = payloadItems.length ∧
        ∀ (j : Nat) (item : PayloadItem), payloadItems[j]? = some item →
          combo[j]? = item.Items[(p / ((payloadItems.drop (j + 1)).map
                    (fun it => it.Items.length)).prod) % item.Items.length]? := by
  intro payloadItems
  induction payloadItems with
  | nil =>
    intro p hp
    simp only [List.map_nil, List.prod_nil, Nat.lt_one_iff] at hp
    subst hp
    exact ⟨[], by simp [GenerateCombinations], rfl, by simp⟩
  | cons first rest ih =>
    intro p hp
    simp only [List.map_cons, List.prod_cons] at hp
    set R := (rest.map (fun item => item.Items.length)).prod with hR
    have hRpos : 0 < R := by
      rcases Nat.eq_zero_or_pos R with h0 | h0
      · rw [h0] at hp; simp at hp
      · exact h0
    have hq : p / R < first.Items.length := by
      rw [Nat.div_lt_iff_lt_mul hRpos]; exact hp
    have hm : p % R < R := Nat.mod_lt _ hRpos
    obtain ⟨c, hc1, hc2, hc3⟩ := ih (p % R) hm
    have hblock := flatMap_block_getElem? first.Items
      (fun x => (GenerateCombinations rest).map (fun c => x :: c)) R hRpos
      (fun a _ => by simp [GenerateCombinations_length, hR]) p
    refine ⟨first.Items[p / R] :: c, ?_, by simp [hc2], ?_⟩
    · simp only [GenerateCombinations, hblock, List.getElem?_eq_getElem hq, Option.some_bind,
        List.getElem?_map, hc1, Option.map_some']
    · intro j item hj
      cases j with
      | zero =>
        simp only [List.getElem?_cons_zero, Option.some.injEq] at hj
        subst hj
        simp only [List.getElem?_cons_zero, List.drop_succ_cons, List.drop_zero]
        rw [← hR, Nat.mod_eq_of_lt hq, List.getElem?_eq_getElem hq]
      | succ j =>
        simp only [List.getElem?_cons_succ] at hj
        simp only [List.getElem?_cons_succ, List.drop_succ_cons]
        rw [hc3 j item hj]
        obtain ⟨A, hA⟩ := prod_lengths_split rest j item hj
        rw [hR, hA, odometer_digit]

/-! ## Maps -/

theorem mapGet_mapSet_self {β : Type} (m : GoMap β) (k : Str) (v : β) :
    mapGet (mapSet m k v) k = some v := by
  induction m with
  | nil => simp [mapSet, mapGet]
  | cons e rest ih =>
    obtain ⟨k', v'⟩ := e
    by_cases h : k' = k
    · simp [mapSet, mapGet, h]
    · simp [mapSet, mapGet, h, ih]

theorem mapGet_mapSet_ne {β : Type} (m : GoMap β) (k k' : Str) (v : β) (h : k ≠ k') :
    mapGet (mapSet m k v) k' = mapGet m k' := by
  induction m with
  | nil => simp [mapSet, mapGet, h]
  | cons e rest ih =>
    obtain ⟨k0, v0⟩ := e
    by_cases h0 : k0 = k
    · subst h0
      simp [mapSet, mapGet, h]
    · by_cases h1 : k0 = k'
      · subst h1
        simp [mapSet, mapGet, h0]
      · simp [mapSet, mapGet, h0, h1, ih]

theorem mapGet_mapOverlay {β : Type} (merged : GoMap β) (k : Str) :
    ∀ src : GoMap β,
      mapGet (mapOverlay merged src) k = (mapGet src k).orElse (fun _ => mapGet merged k) := by
  intro src
  induction src with
  | nil => simp [mapOverlay, mapGet]
  | cons e rest ih =>
    obtain ⟨k0, v0⟩ := e
    by_cases h : k0 = k
    · subst h
      simp [mapOverlay, mapGet, mapGet_mapSet_self]
    · simp [mapOverlay, mapGet, h, mapGet_mapSet_ne _ _ _ _ h, ih]

/-! ## The parser -/

theorem SplitN_length_le (sep : Str) :
    ∀ (n : Nat) (s : Str), (strings.SplitN s sep n).length ≤ n := by
  intro n
  induction n using Nat.strong_induction_on with
  | _ n ih =>
    intro s
    match n with
    | 0 => simp [strings.SplitN]
    | 1 => simp [strings.SplitN]
    | n + 2 =>
      simp only [strings.SplitN]
      cases strings.Cut s sep with
      | none => simp
      | some p =>
        have := ih (n + 1) (by omega) p.2
        simp only [List.length_cons]
        omega

theorem parseStartLine_frame (isRequest : Bool) (line : Str) (result : Context) (k : Str)
    (hk : k ∉ ["method".toList, "path".toList, "http_version".toList, "status".toList,
      "status_reason".toList]) :
    mapGet (parseStartLine isRequest line result) k = mapGet result k := by
  simp only [List.mem_cons, List.mem_singleton, List.not_mem_nil, or_false, not_or] at hk
  obtain ⟨h1, h2, h3, h4, h5⟩ := hk
  unfold parseStartLine
  cases isRequest
  · simp only [Bool.false_eq_true, if_false]
    split
    · rw [mapGet_mapSet_ne _ _ _ _ (Ne.symm h5), mapGet_mapSet_ne _ _ _ _ (Ne.symm h4)]
    · rfl
  · simp only [if_true]
    split
    · split
      · rw [mapGet_mapSet_ne _ _ _ _ (Ne.symm h3), mapGet_mapSet_ne _ _ _ _ (Ne.symm h2),
          mapGet_mapSet_ne _ _ _ _ (Ne.symm h1)]
      · rw [mapGet_mapSet_ne _ _ _ _ (Ne.symm h2), mapGet_mapSet_ne _ _ _ _ (Ne.symm h1)]
    · rfl

theorem parseStartLine_request_frame (line : Str) (result : Context) (k : Str)
    (hk : k ∉ ["method".toList, "path".toList, "http_version".toList]) :
    mapGet (parseStartLine true line result) k = mapGet result k := by
  simp only [List.mem_cons, List.mem_singleton, List.not_mem_nil, or_false, not_or] at hk
  obtain ⟨h1, h2, h3⟩ := hk
  unfold parseStartLine
  simp only [if_true]
  split
  · split
    · rw [mapGet_mapSet_ne _ _ _ _ (Ne.symm h3), mapGet_mapSet_ne _ _ _ _ (Ne.symm h2),
        mapGet_mapSet_ne _ _ _ _ (Ne.symm h1)]
    · rw [mapGet_mapSet_ne _ _ _ _ (Ne.symm h2), mapGet_mapSet_ne _ _ _ _ (Ne.symm h1)]
  · rfl

theorem parseStartLine_response_frame (line : Str) (result : Context) (k : Str)
    (hk : k ∉ ["status".toList, "status_reason".toList]) :
    mapGet (parseStartLine false line result) k = mapGet result k := by
  simp only [List.mem_cons, List.mem_singleton, List.not_mem_nil, or_false, not_or] at hk
  obtain ⟨h4, h5⟩ := hk
  unfold parseStartLine
  simp only [Bool.false_eq_true, if_false]
  split
  · rw [mapGet_mapSet_ne _ _ _ _ (Ne.symm h5), mapGet_mapSet_ne _ _ _ _ (Ne.symm h4)]
  · rfl

theorem parseHeaderLine_frame (ops : TextOps) (line : Str) (st : Context × GoMap Str) (k : Str)
    (hk : k ∉ ["host".toList, "content_type".toList, "content_length".toList]) :
    mapGet (parseHeaderLine ops line st).1 k = mapGet st.1 k := by
  simp only [List.mem_cons, List.mem_singleton, List.not_mem_nil, or_false, not_or] at hk
  obtain ⟨h1, h2, h3⟩ := hk
  unfold parseHeaderLine
  simp only
  split
  · split
    · exact mapGet_mapSet_ne _ _ _ _ (Ne.symm h1)
    · split
      · exact mapGet_mapSet_ne _ _ _ _ (Ne.symm h2)
      · split
        · exact mapGet_mapSet_ne _ _ _ _ (Ne.symm h3)
        · rfl
  · rfl

theorem parseLines_header_frame (ops : TextOps) (isRequest : Bool) (k : Str)
    (hk : k ∉ ["host".toList, "content_type".toList, "content_length".toList]) :
    ∀ (lines : List Str) (lineNum : Nat) (st : Context × GoMap Str), lineNum ≠ 0 →
      mapGet (parseLines ops isRequest lineNum lines st).1 k = mapGet st.1 k := by
  intro lines
  induction lines with
  | nil => intro lineNum st _; rfl
  | cons line rest ih =>
    intro lineNum st h
    simp only [parseLines, h, if_false]
    rw [ih (lineNum + 1) _ (by omega), parseHeaderLine_frame ops line st k hk]

theorem parseLines_frame (ops : TextOps) (isRequest : Bool) (k : Str)
    (hk : k ∉ ["method".toList, "path".toList, "http_version".toList, "status".toList,
      "status_reason".toList, "host".toList, "content_type".toList, "content_length".toList]) :
    ∀ (lines : List Str) (lineNum : Nat) (st : Context × GoMap Str),
      mapGet (parseLines ops isRequest lineNum lines st).1 k = mapGet st.1 k := by
  have hk1 : k ∉ ["method".toList, "path".toList, "http_version".toList, "status".toList,
      "status_reason".toList] := fun h => hk (by simp only [List.mem_cons] at h ⊢; tauto)
  have hk2 : k ∉ ["host".toList, "content_type".toList, "content_length".toList] :=
    fun h => hk (by simp only [List.mem_cons] at h ⊢; tauto)
  intro lines
  induction lines with
  | nil => intro lineNum st; rfl
  | cons line rest ih =>
    intro lineNum st
    simp only [parseLines]
    rw [ih]
    by_cases h : lineNum = 0
    · simp only [h, if_true]
      exact parseStartLine_frame isRequest line st.1 k hk1
    · simp only [h, if_false]
      exact parseHeaderLine_frame ops line st k hk2

theorem parseLines_append (ops : TextOps) (isRequest : Bool) :
    ∀ (a b : List Str) (lineNum : Nat) (st : Context × GoMap Str),
      parseLines ops isRequest lineNum (a ++ b) st
        = parseLines ops isRequest (lineNum + a.length) b (parseLines ops isRequest lineNum a st) := by
  intro a
  induction a with
  | nil => intro b lineNum st; rfl
  | cons x a ih =>
    intro b lineNum st
    have e : lineNum + 1 + a.length = lineNum + (a.length + 1) := by omega
    rw [List.cons_append, List.length_cons, parseLines, parseLines, ih, e]

/-! ## The parser: what a parsed message holds -/

theorem Cut_space_none : ∀ a : Str, ' ' ∉ a → strings.Cut a [' '] = none := by
  intro a
  induction a with
  | nil => intro _; simp [strings.Cut]
  | cons c a ih =>
    intro h
    have hc : c ≠ ' ' := fun e => h (by simp [e])
    have ha : ' ' ∉ a := fun e => h (by simp [e])
    simp [strings.Cut, List.isPrefixOf, hc, Ne.symm hc, ih ha]

theorem Cut_space_some : ∀ a b : Str, ' ' ∉ a → strings.Cut (a ++ ' ' :: b) [' '] = some (a, b) := by
  intro a
  induction a with
  | nil => intro b _; simp [strings.Cut, List.isPrefixOf]
  | cons c a ih =>
    intro b h
    have hc : c ≠ ' ' := fun e => h (by simp [e])
    have ha : ' ' ∉ a := fun e => h (by simp [e])
    simp [strings.Cut, List.isPrefixOf, hc, Ne.symm hc, ih b ha]

theorem SplitN_space_three (p0 p1 p2 : Str) (h0 : ' ' ∉ p0) (h1 : ' ' ∉ p1) :
    strings.SplitN (p0 ++ ' ' :: (p1 ++ ' ' :: p2)) " ".toList 3 = [p0, p1, p2] := by
  have e : " ".toList = [' '] := rfl
  rw [e]
  simp [strings.SplitN, Cut_space_some _ _ h0, Cut_space_some _ _ h1]

theorem SplitN_space_two (p0 p1 : Str) (h0 : ' ' ∉ p0) (h1 : ' ' ∉ p1) :
    strings.SplitN (p0 ++ ' ' :: p1) " ".toList 3 = [p0, p1] := by
  have e : " ".toList = [' '] := rfl
  rw [e]
  simp [strings.SplitN, Cut_space_some _ _ h0, Cut_space_none _ h1]

theorem SplitN_space_one (p0 : Str) (h0 : ' ' ∉ p0) :
    strings.SplitN p0 " ".toList 3 = [p0] := by
  have e : " ".toList = [' '] := rfl
  rw [e]
  simp [strings.SplitN, Cut_space_none _ h0]

theorem mapGet_mapSet_congr {β : Type} (m1 m2 : GoMap β) (c k : Str) (v : β)
    (h : c ≠ k → mapGet m1 k = mapGet m2 k) :
    mapGet (mapSet m1 c v) k = mapGet (mapSet m2 c v) k := by
  by_cases hc : c = k
  · rw [← hc, mapGet_mapSet_self, mapGet_mapSet_self]
  · rw [mapGet_mapSet_ne _ _ _ _ hc, mapGet_mapSet_ne _ _ _ _ hc, h hc]

theorem parseRawHTTP_get (ops : TextOps) (raw : Str) (isRequest : Bool) (k : Str)
    (hraw : raw ≠ [])
    (hk : k ∉ ["method".toList, "path".toList, "http_version".toList, "status".toList,
      "status_reason".toList, "host".toList, "content_type".toList, "content_length".toList]) :
    ∃ headerMap : GoMap Str,
      mapGet (parseRawHTTP ops raw isRequest) k
        = mapGet
            (mapSet
              (mapSet
                (mapSet ([] : Context)
                  (if isRequest then "request".toList else "response".toList) (Value.str raw))
                (if isRequest then "request_body".toList else "response_body".toList)
                (Value.str (bodyBlock raw)))
              (if isRequest then "request_headers".toList else "response_headers".toList)
              (Value.strMap headerMap)) k := by
  unfold parseRawHTTP
  simp only [hraw, if_false]
  cases isRequest
  · simp only [Bool.false_eq_true, if_false]
    exact ⟨_, mapGet_mapSet_congr _ _ _ _ _ (fun _ => parseLines_frame ops false k hk _ _ _)⟩
  · simp only [if_true]
    exact ⟨_, mapGet_mapSet_congr _ _ _ _ _ (fun _ => parseLines_frame ops true k hk _ _ _)⟩

theorem parseRawHTTP_message_keys (ops : TextOps) (raw : Str) (isRequest : Bool) (k : Str)
    (hk : k ∈ ["request".toList, "request_body".toList, "request_headers".toList,
      "response".toList, "response_body".toList, "response_headers".toList]) :
    (mapGet (parseRawHTTP ops raw isRequest) k).isSome = true ↔
      raw ≠ [] ∧ k ∈ (if isRequest then
        ["request".toList, "request_body".toList, "request_headers".toList]
        else ["response".toList, "response_body".toList, "response_headers".toList]) := by
  by_cases hraw : raw = []
  · simp [parseRawHTTP, hraw, mapGet]
  · simp only [List.mem_cons, List.mem_singleton, List.not_mem_nil, or_false] at hk
    rcases hk with hk | hk | hk | hk | hk | hk <;>
    · obtain ⟨hm, h⟩ := parseRawHTTP_get ops raw isRequest k hraw (by rw [hk]; decide)
      rw [h, hk]
      cases isRequest <;> simp [hraw, mapSet, mapGet]

theorem mergeDSLContext_get (summary : HTTPHistory) (requestData responseData : Context)
    (k : Str) :
    mapGet (mergeDSLContext summary requestData responseData) k
      = (mapGet responseData k).orElse (fun _ =>
          (mapGet requestData k).orElse (fun _ => mapGet (mergeDSLContext summary [] []) k)) := by
  simp [mergeDSLContext, mapGet_mapOverlay, mapOverlay]

/-! ## The parser: promoted keys -/

theorem parseHeaderLine_headers_self (ops : TextOps) (line : Str) (st : Context × GoMap Str)
    (h : 0 < strings.IndexByte line ':') :
    mapGet (parseHeaderLine ops line st).2 (headerKey ops line) = some (headerValue ops line) := by
  unfold parseHeaderLine
  simp only [gt_iff_lt, h, if_true]
  split
  · exact mapGet_mapSet_self _ _ _
  · split
    · exact mapGet_mapSet_self _ _ _
    · split
      · exact mapGet_mapSet_self _ _ _
      · exact mapGet_mapSet_self _ _ _

theorem parseHeaderLine_headers_other (ops : TextOps) (line : Str) (st : Context × GoMap Str)
    (k : Str) (h : ¬ (0 < strings.IndexByte line ':' ∧ headerKey ops line = k)) :
    mapGet (parseHeaderLine ops line st).2 k = mapGet st.2 k := by
  unfold parseHeaderLine
  simp only [gt_iff_lt]
  by_cases hc : 0 < strings.IndexByte line ':'
  · have hne : headerKey ops line ≠ k := fun e => h ⟨hc, e⟩
    simp only [hc, if_true]
    split
    · exact mapGet_mapSet_ne _ _ _ _ hne
    · split
      · exact mapGet_mapSet_ne _ _ _ _ hne
      · split
        · exact mapGet_mapSet_ne _ _ _ _ hne
        · exact mapGet_mapSet_ne _ _ _ _ hne
  · simp only [hc, if_false]

/-- C1 (defect in the code): sniper replaces markers by text, not by
occurrence. For the template `GET /?a=§1§&b=§1§ HTTP/1.1`, whose two markers
have the same text, and the single payload `x`, the request generated for
position 1 is `GET /?a=x&b=1 HTTP/1.1`: the payload lands in marker 0, the
request equals the one for position 0, and it contradicts its own payload
array `["1", "x"]`. Replacing marker occurrence 1 by the payload and the
other by its inner text gives `GET /?a=1&b=x HTTP/1.1`. Likewise, for the
template `GET /§X§/§Y§ HTTP/1.1` and the payload `§Y§`, which is the text of
the other marker, the request for position 0 is `GET /Y/§Y§ HTTP/1.1`
instead of `GET /§Y§/Y HTTP/1.1`. -/
theorem sniper_same_marker_text_misplaces_payload :
    GetPositions "GET /?a=§1§&b=§1§ HTTP/1.1".toList = ["§1§".toList, "§1§".toList] ∧
    (generateSniperRequests id "GET /?a=§1§&b=§1§ HTTP/1.1".toList
        ["§1§".toList, "§1§".toList] [{ ID := 1, Type_ := "simple".toList, Items := ["x".toList] }])
      = [ { ID := 1, Request := "GET /?a=x&b=1 HTTP/1.1".toList,
            Payload := ["x".toList, "1".toList] },
          { ID := 2, Request := "GET /?a=x&b=1 HTTP/1.1".toList,
            Payload := ["1".toList, "x".toList] } ] ∧
    replaceLeftToRight (fun i inner => if i = 1 then "x".toList else inner)
        "GET /?a=§1§&b=§1§ HTTP/1.1".toList
      = "GET /?a=1&b=x HTTP/1.1".toList ∧
    GetPositions "GET /§X§/§Y§ HTTP/1.1".toList = ["§X§".toList, "§Y§".toList] ∧
    (generateSniperRequests id "GET /§X§/§Y§ HTTP/1.1".toList
        ["§X§".toList, "§Y§".toList]
        [{ ID := 1, Type_ := "simple".toList, Items := ["§Y§".toList] }])[0]?
      = some { ID := 1, Request := "GET /Y/§Y§ HTTP/1.1".toList,
               Payload := ["§Y§".toList, "Y".toList] } ∧
    replaceLeftToRight (fun i inner => if i = 0 then "§Y§".toList else inner)
        "GET /§X§/§Y§ HTTP/1.1".toList
      = "GET /§Y§/Y HTTP/1.1".toList := by
  decide

/-! ## C2 -/

/-- C2: `generateSniperRequests` returns exactly `m * |U|` requests for `m`
positions and the flattened payload list `U`; the request for position `i`
and the `j`-th payload `u` sits at index `i * |U| + j` (position index
first, then payload order) with id `i * |U| + j + 1`; its payload array has
length `m`, holds `Processing u` at index `i` and, at every other index `k`,
the original content of position `k`, which for a marker `§inner§` is
`inner`. -/
theorem sniper_count_and_payload_array (Processing : Str → Str) (rawReq : Str)
    (positions : List Str) (payloadItems : List PayloadItem) :
    (generateSniperRequests Processing rawReq positions payloadItems).length
        = positions.length * (allPayloads payloadItems).length ∧
    ∀ (i j : Nat) (position u : Str), positions[i]? = some position →
      (allPayloads payloadItems)[j]? = some u →
      ∃ req : intruderRequest,
        (generateSniperRequests Processing rawReq positions payloadItems)[
            i * (allPayloads payloadItems).length + j]? = some req ∧
        req.ID = ((i * (allPayloads payloadItems).length + j : Nat) : Int) + 1 ∧
        req.Payload.length = positions.length ∧
        req.Payload[i]? = some (Processing u) ∧
        (∀ k : Nat, k ≠ i → req.Payload[k]? = positions[k]?.map originalContent) ∧
        (∀ (k : Nat) (inner : Str), k ≠ i → positions[k]? = some (sect :: (inner ++ [sect])) →
          req.Payload[k]? = some inner) := by
  obtain ⟨added, h1, h2, h3⟩ := sniperPositionLoop_spec Processing rawReq positions
    (allPayloads payloadItems) positions 0 [] 0
  have hgen : generateSniperRequests Processing rawReq positions payloadItems = added := by
    simp [generateSniperRequests, h1]
  rw [hgen]
  refine ⟨h2, ?_⟩
  intro i j position u hi hj
  have hreq := h3 i j position u hi hj
  rw [Nat.zero_add, zero_add] at hreq
  have hk : ∀ k : Nat, k ≠ i →
      (sniperPayloadArray i (Processing u) 0 positions)[k]? = positions[k]?.map originalContent := by
    intro k hki
    rw [sniperPayloadArray_getElem?]
    simp [hki]
  refine ⟨_, hreq, by simp [sniperRequest], ?_, ?_, hk, ?_⟩
  · simp [sniperRequest, sniperPayloadArray_length]
  · simp [sniperRequest, sniperPayloadArray_getElem?, hi]
  · intro k inner hki hpos
    have := hk k hki
    simp only [sniperRequest]
    rw [this, hpos]
    simp [originalContent_marker]

/-- C2 at the specification's scenario S4: positions `§X§`, `§Y§`, payloads
`1`, `2`; the request for position 1 and payload `1` is the third one. -/
theorem sniper_count_and_payload_array_witness :
    ∃ req : intruderRequest,
      (generateSniperRequests id "GET /a/§X§/b/§Y§ HTTP/1.1".toList
          ["§X§".toList, "§Y§".toList]
          [{ ID := 1, Type_ := "simple".toList, Items := ["1".toList, "2".toList] }])[
            1 * (allPayloads
              [{ ID := 1, Type_ := "simple".toList, Items := ["1".toList, "2".toList] }]).length
              + 0]? = some req ∧
        req.ID = ((1 * (allPayloads
              [{ ID := 1, Type_ := "simple".toList, Items := ["1".toList, "2".toList] }]).length
              + 0 : Nat) : Int) + 1 ∧
        req.Payload.length = ["§X§".toList, "§Y§".toList].length ∧
        req.Payload[1]? = some (id "1".toList) ∧
        (∀ k : Nat, k ≠ 1 →
          req.Payload[k]? = (["§X§".toList, "§Y§".toList])[k]?.map originalContent) ∧
        (∀ (k : Nat) (inner : Str), k ≠ 1 →
          (["§X§".toList, "§Y§".toList])[k]? = some (sect :: (inner ++ [sect])) →
          req.Payload[k]? = some inner) :=
  (sniper_count_and_payload_array id "GET /a/§X§/b/§Y§ HTTP/1.1".toList
    ["§X§".toList, "§Y§".toList]
    [{ ID := 1, Type_ := "simple".toList, Items := ["1".toList, "2".toList] }]).2
    1 0 "§Y§".toList "1".toList (by decide) (by decide)

/-! ## C3 -/

/-- C3 (the claim as stated fails): with one position and the payload sets
`[a, b]` and `[c]`, the minimum over the indices below `min(k, m) = 1` is 2,
but `generatePitchforkRequests` returns one request: the second set, which
has no position, lowers the count. -/
theorem pitchfork_count_not_over_positions_only :
    pitchforkSpecCount ["§X§".toList]
        [ { ID := 1, Type_ := "simple".toList, Items := ["a".toList, "b".toList] },
          { ID := 2, Type_ := "simple".toList, Items := ["c".toList] } ] = some 2 ∧
    (generatePitchforkRequests "GET /§X§ HTTP/1.1".toList ["§X§".toList]
        [ { ID := 1, Type_ := "simple".toList, Items := ["a".toList, "b".toList] },
          { ID := 2, Type_ := "simple".toList, Items := ["c".toList] } ]).map List.length
      = some 1 := by
  decide

/-- C3 (amended): for `k ≥ 1` payload sets and any positions,
`generatePitchforkRequests` returns (without a panic) exactly `n` requests
where `n` is the minimum of `|S_i|` over all `k` payload sets: `n` is at most
the size of every set and equal to the size of one of them. -/
theorem pitchfork_count_min_over_all_sets (rawReq : Str) (positions : List Str)
    (first : PayloadItem) (rest : List PayloadItem) :
    ∃ requests : List intruderRequest,
      generatePitchforkRequests rawReq positions (first :: rest) = some requests ∧
      (∀ item ∈ first :: rest, requests.length ≤ item.Items.length) ∧
      (∃ item ∈ first :: rest, requests.length = item.Items.length) := by
  obtain ⟨h1, h2, h3⟩ := pitchforkMinLen_le rest first.Items.length
  have hall : ∀ item ∈ first :: rest,
      0 + pitchforkMinLen first.Items.length rest ≤ item.Items.length := by
    intro item hit
    rcases List.mem_cons.1 hit with e | e
    · subst e; omega
    · have := h2 item e; omega
  obtain ⟨requests, k1, k2, _⟩ := pitchforkLoop_spec rawReq positions (first :: rest)
    (pitchforkMinLen first.Items.length rest) 0 hall
  refine ⟨requests, by simp [generatePitchforkRequests, k1], ?_, ?_⟩
  · intro item hit
    have := hall item hit
    omega
  · rcases h3 with e | ⟨item, hit, e⟩
    · exact ⟨first, by simp, by omega⟩
    · exact ⟨item, by simp [hit], by omega⟩

/-! ## C4 -/

/-- C4: for a template whose markers, in source order, are the given
positions, and the `j`-th payload `u` of the flattened list `U`, `u` holding
no `§`: the `j`-th request of `generateBatteringRamRequests` has id `j + 1`,
the template with every marker occurrence replaced by `u` (all other text
unchanged) as its text and `[u]` as its payload array; the number of
requests is `|U|`, which is the sum of the sizes of the payload sets. -/
theorem batteringRam_replaces_every_marker (template : Str) (payloadItems : List PayloadItem)
    (j : Nat) (u : Str) (hj : (allPayloads payloadItems)[j]? = some u) (hu : sect ∉ u) :
    (generateBatteringRamRequests template (GetPositions template) payloadItems)[j]?
        = some { ID := (j : Int) + 1,
                 Request := replaceLeftToRight (fun _ _ => u) template,
                 Payload := [u] } ∧
    (generateBatteringRamRequests template (GetPositions template) payloadItems).length
        = (allPayloads payloadItems).length ∧
    (allPayloads payloadItems).length
        = (payloadItems.map (fun item => item.Items.length)).sum := by
  refine ⟨?_, ?_, allPayloads_length payloadItems⟩
  · simp only [generateBatteringRamRequests, batteringRamLoop_getElem?, hj, Option.map_some',
      batteringRamReplace_template u hu template]
    simp
  · simp [generateBatteringRamRequests, batteringRamLoop_length]

/-- C4 at a template with two markers of the same text and the payloads
`x`, `y`: the second request is `GET /?a=y&b=y HTTP/1.1`. -/
theorem batteringRam_replaces_every_marker_witness :
    ((allPayloads [{ ID := 1, Type_ := "simple".toList, Items := ["x".toList, "y".toList] }])[1]?
        = some "y".toList ∧ sect ∉ "y".toList) ∧
    replaceLeftToRight (fun _ _ => "y".toList) "GET /?a=§1§&b=§1§ HTTP/1.1".toList
        = "GET /?a=y&b=y HTTP/1.1".toList ∧
    ((generateBatteringRamRequests "GET /?a=§1§&b=§1§ HTTP/1.1".toList
          (GetPositions "GET /?a=§1§&b=§1§ HTTP/1.1".toList)
          [{ ID := 1, Type_ := "simple".toList, Items := ["x".toList, "y".toList] }])[1]?
        = some { ID := ((1 : Nat) : Int) + 1,
                 Request := replaceLeftToRight (fun _ _ => "y".toList)
                   "GET /?a=§1§&b=§1§ HTTP/1.1".toList,
                 Payload := ["y".toList] } ∧
      (generateBatteringRamRequests "GET /?a=§1§&b=§1§ HTTP/1.1".toList
          (GetPositions "GET /?a=§1§&b=§1§ HTTP/1.1".toList)
          [{ ID := 1, Type_ := "simple".toList, Items := ["x".toList, "y".toList] }]).length
        = (allPayloads
            [{ ID := 1, Type_ := "simple".toList, Items := ["x".toList, "y".toList] }]).length ∧
      (allPayloads
          [{ ID := 1, Type_ := "simple".toList, Items := ["x".toList, "y".toList] }]).length
        = (List.map (fun item : PayloadItem => item.Items.length)
            [{ ID := 1, Type_ := "simple".toList, Items := ["x".toList, "y".toList] }]).sum) :=
  ⟨⟨by decide, by decide⟩, by decide,
    batteringRam_replaces_every_marker "GET /?a=§1§&b=§1§ HTTP/1.1".toList
      [{ ID := 1, Type_ := "simple".toList, Items := ["x".toList, "y".toList] }]
      1 "y".toList (by decide) (by decide)⟩

/-! ## C5 -/

/-- C5: the payload arrays of the requests of `generateClusterBombRequests`,
read in order, are the list `GenerateCombinations` of the payload sets; their
number is the product of the sizes of the sets; a list is among them exactly
when it picks one item from each set in turn (nothing omitted, nothing
else); when no set repeats an item no combination occurs twice; and the
order is that of an odometer: the combination at index `p` takes from set
`j` the item of index `(p / (|S_(j+1)| * … * |S_(k-1)|)) % |S_j|`, so the
rightmost index varies fastest. -/
theorem clusterBomb_enumerates_product (rawReq : Str) (positions : List Str)
    (payloadItems : List PayloadItem) :
    (generateClusterBombRequests rawReq positions payloadItems).map (fun r => r.Payload)
        = GenerateCombinations payloadItems ∧
    (generateClusterBombRequests rawReq positions payloadItems).length
        = (payloadItems.map (fun item => item.Items.length)).prod ∧
    (∀ combo : List Str,
      combo ∈ (generateClusterBombRequests rawReq positions payloadItems).map (fun r => r.Payload)
        ↔ List.Forall₂ (fun x item => x ∈ PayloadItem.Items item) combo payloadItems) ∧
    ((∀ item ∈ payloadItems, item.Items.Nodup) →
      ((generateClusterBombRequests rawReq positions payloadItems).map
        (fun r => r.Payload)).Nodup) ∧
    (∀ p : Nat, p < (payloadItems.map (fun item => item.Items.length)).prod →
      ∃ combo : List Str,
        ((generateClusterBombRequests rawReq positions payloadItems).map
          (fun r => r.Payload))[p]? = some combo ∧
        combo.length = payloadItems.length ∧
        ∀ (j : Nat) (item : PayloadItem), payloadItems[j]? = some item →
          combo[j]? = item.Items[(p / ((payloadItems.drop (j + 1)).map
                    (fun it => it.Items.length)).prod) % item.Items.length]?) := by
  have hp : (generateClusterBombRequests rawReq positions payloadItems).map (fun r => r.Payload)
      = GenerateCombinations payloadItems := by
    simp [generateClusterBombRequests, clusterBombLoop_payloads]
  refine ⟨hp, ?_, ?_, ?_, ?_⟩
  · rw [← GenerateCombinations_length, ← hp, List.length_map]
  · intro combo
    rw [hp]
    exact mem_GenerateCombinations payloadItems combo
  · intro h
    rw [hp]
    exact GenerateCombinations_nodup payloadItems h
  · intro p hlt
    rw [hp]
    exact GenerateCombinations_getElem? payloadItems p hlt

/-- C5 at the specification's scenario S5: the sets `[a1, a2]` and
`[b1, b2, b3]` give the six combinations in odometer order, none twice. -/
theorem clusterBomb_enumerates_product_witness :
    (generateClusterBombRequests "GET /§A§/§B§ HTTP/1.1".toList ["§A§".toList, "§B§".toList]
        [ { ID := 1, Type_ := "simple".toList, Items := ["a1".toList, "a2".toList] },
          { ID := 2, Type_ := "simple".toList,
            Items := ["b1".toList, "b2".toList, "b3".toList] } ]).map (fun r => r.Payload)
      = [ ["a1".toList, "b1".toList], ["a1".toList, "b2".toList], ["a1".toList, "b3".toList],
          ["a2".toList, "b1".toList], ["a2".toList, "b2".toList], ["a2".toList, "b3".toList] ] ∧
    ((generateClusterBombRequests "GET /§A§/§B§ HTTP/1.1".toList ["§A§".toList, "§B§".toList]
        [ { ID := 1, Type_ := "simple".toList, Items := ["a1".toList, "a2".toList] },
          { ID := 2, Type_ := "simple".toList,
            Items := ["b1".toList, "b2".toList, "b3".toList] } ]).map
        (fun r => r.Payload)).Nodup :=
  ⟨by decide,
    (clusterBomb_enumerates_product "GET /§A§/§B§ HTTP/1.1".toList ["§A§".toList, "§B§".toList]
        [ { ID := 1, Type_ := "simple".toList, Items := ["a1".toList, "a2".toList] },
          { ID := 2, Type_ := "simple".toList,
            Items := ["b1".toList, "b2".toList, "b3".toList] } ]).2.2.2.1 (by decide)⟩

/-! ## C6 -/

/-- C6: for every attack type (the four known ones in particular) and every
input, `generateIntruderRequests` returns a list (it does not panic) whose
request at list index `i` has id `i + 1`: the ids are `1, 2, …, N` in list
order. -/
theorem generateIntruderRequests_ids (Processing : Str → Str) (rawReq : Str)
    (positions : List Str) (payloadItems : List PayloadItem) (attackType : Str) :
    ∃ requests : List intruderRequest,
      generateIntruderRequests Processing rawReq positions payloadItems attackType
        = some requests ∧
      ∀ (i : Nat) (req : intruderRequest), requests[i]? = some req → req.ID = (i : Int) + 1 := by
  unfold generateIntruderRequests
  split
  · refine ⟨_, rfl, ?_⟩
    intro i req h
    exact sniperPositionLoop_ids Processing rawReq positions (allPayloads payloadItems)
      positions 0 ([], 0) ⟨by simp, by simp⟩ i req h
  · split
    · refine ⟨_, rfl, ?_⟩
      intro i req h
      simp only [generateBatteringRamRequests, batteringRamLoop_getElem?] at h
      cases hu : (allPayloads payloadItems)[i]? with
      | none => simp [hu] at h
      | some u =>
        simp only [hu, Option.map_some', Option.some.injEq] at h
        subst h
        simp
    · split
      · cases payloadItems with
        | nil => exact ⟨[], rfl, by simp⟩
        | cons first rest =>
          obtain ⟨h1, h2, _⟩ := pitchforkMinLen_le rest first.Items.length
          have hall : ∀ item ∈ first :: rest,
              0 + pitchforkMinLen first.Items.length rest ≤ item.Items.length := by
            intro item hit
            rcases List.mem_cons.1 hit with e | e
            · subst e; omega
            · have := h2 item e; omega
          obtain ⟨requests, k1, _, k3⟩ := pitchforkLoop_spec rawReq positions (first :: rest)
            (pitchforkMinLen first.Items.length rest) 0 hall
          refine ⟨requests, by simp [generatePitchforkRequests, k1], ?_⟩
          intro i req h
          have := k3 i req h
          simpa using this
      · split
        · refine ⟨_, rfl, ?_⟩
          intro i req h
          have := clusterBombLoop_ids rawReq positions _ 0 i req h
          simpa using this
        · exact ⟨[], rfl, by simp⟩

/-! ## The context builder: the summary keys -/

theorem mergeDSLContext_base_none (summary : HTTPHistory) (k : Str) (hk : k ∉ summaryKeys) :
    mapGet (mergeDSLContext summary [] []) k = none := by
  simp only [summaryKeys, List.mem_cons, List.mem_singleton, List.not_mem_nil, or_false,
    not_or] at hk
  obtain ⟨h1, h2, h3, h4, h5, h6, h7, h8, h9⟩ := hk
  simp only [mergeDSLContext, mapOverlay]
  rw [mapGet_mapSet_ne _ _ _ _ (Ne.symm h9), mapGet_mapSet_ne _ _ _ _ (Ne.symm h8),
    mapGet_mapSet_ne _ _ _ _ (Ne.symm h7), mapGet_mapSet_ne _ _ _ _ (Ne.symm h6),
    mapGet_mapSet_ne _ _ _ _ (Ne.symm h5), mapGet_mapSet_ne _ _ _ _ (Ne.symm h4),
    mapGet_mapSet_ne _ _ _ _ (Ne.symm h3), mapGet_mapSet_ne _ _ _ _ (Ne.symm h2),
    mapGet_mapSet_ne _ _ _ _ (Ne.symm h1)]
  rfl

theorem mergeDSLContext_base_some (summary : HTTPHistory) (k : Str) (hk : k ∈ summaryKeys) :
    (mapGet (mergeDSLContext summary [] []) k).isSome = true := by
  simp only [summaryKeys, List.mem_cons, List.mem_singleton, List.not_mem_nil, or_false] at hk
  simp only [mergeDSLContext, mapOverlay]
  rcases hk with h | h | h | h | h | h | h | h | h <;> rw [h]
  · rw [mapGet_mapSet_ne _ _ _ _ (by decide), mapGet_mapSet_ne _ _ _ _ (by decide),
      mapGet_mapSet_ne _ _ _ _ (by decide), mapGet_mapSet_ne _ _ _ _ (by decide),
      mapGet_mapSet_ne _ _ _ _ (by decide), mapGet_mapSet_ne _ _ _ _ (by decide),
      mapGet_mapSet_ne _ _ _ _ (by decide), mapGet_mapSet_ne _ _ _ _ (by decide),
      mapGet_mapSet_self]
    rfl
  · rw [mapGet_mapSet_ne _ _ _ _ (by decide), mapGet_mapSet_ne _ _ _ _ (by decide),
      mapGet_mapSet_ne _ _ _ _ (by decide), mapGet_mapSet_ne _ _ _ _ (by decide),
      mapGet_mapSet_ne _ _ _ _ (by decide), mapGet_mapSet_ne _ _ _ _ (by decide),
      mapGet_mapSet_ne _ _ _ _ (by decide), mapGet_mapSet_self]
    rfl
  · rw [mapGet_mapSet_ne _ _ _ _ (by decide), mapGet_mapSet_ne _ _ _ _ (by decide),
      mapGet_mapSet_ne _ _ _ _ (by decide), mapGet_mapSet_ne _ _ _ _ (by decide),
      mapGet_mapSet_ne _ _ _ _ (by decide), mapGet_mapSet_ne _ _ _ _ (by decide),
      mapGet_mapSet_self]
    rfl
  · rw [mapGet_mapSet_ne _ _ _ _ (by decide), mapGet_mapSet_ne _ _ _ _ (by decide),
      mapGet_mapSet_ne _ _ _ _ (by decide), mapGet_mapSet_ne _ _ _ _ (by decide),
      mapGet_mapSet_ne _ _ _ _ (by decide), mapGet_mapSet_self]
    rfl
  · rw [mapGet_mapSet_ne _ _ _ _ (by decide), mapGet_mapSet_ne _ _ _ _ (by decide),
      mapGet_mapSet_ne _ _ _ _ (by decide), mapGet_mapSet_ne _ _ _ _ (by decide),
      mapGet_mapSet_self]
    rfl
  · rw [mapGet_mapSet_ne _ _ _ _ (by decide), mapGet_mapSet_ne _ _ _ _ (by decide),
      mapGet_mapSet_ne _ _ _ _ (by decide), mapGet_mapSet_self]
    rfl
  · rw [mapGet_mapSet_ne _ _ _ _ (by decide), mapGet_mapSet_ne _ _ _ _ (by decide),
      mapGet_mapSet_self]
    rfl
  · rw [mapGet_mapSet_ne _ _ _ _ (by decide), mapGet_mapSet_self]
    rfl
  · rw [mapGet_mapSet_self]
    rfl

/-! ## C7 -/

/-- C7 (the claim as stated fails): for empty request and response texts the
context built by `mergeDSLContext` holds the nine summary keys only; at
this input the other nine recognized keys are absent. For an ordinary
request and response pair without a `Content-Length` header the key
`content_length` is absent. -/
theorem context_misses_recognized_keys :
    recognizedKeys.filter (fun k =>
        (mapGet (mergeDSLContext sampleSummary (parseRawHTTP asciiOps [] true)
          (parseRawHTTP asciiOps [] false)) k).isNone)
      = [ "request".toList, "request_body".toList, "request_headers".toList,
          "response".toList, "response_body".toList, "response_headers".toList,
          "status_reason".toList, "http_version".toList, "content_length".toList ] ∧
    recognizedKeys.filter (fun k =>
        (mapGet (mergeDSLContext sampleSummary
          (parseRawHTTP asciiOps "GET /x HTTP/1.1\r\nHost: h\r\n\r\n".toList true)
          (parseRawHTTP asciiOps "HTTP/1.1 200 OK\r\n\r\nok".toList false)) k).isNone)
      = [ "content_length".toList ] := by
  decide

/-- C7 (amended): for every summary and every raw request and response
text, the context built by `mergeDSLContext` from the summary and the two
parsed messages always holds the nine summary keys; it holds `request`,
`request_body` and `request_headers` exactly when the request text is not
empty, and `response`, `response_body` and `response_headers` exactly when
the response text is not empty; each of `status_reason`, `http_version` and
`content_length` is absent exactly when neither parsed message holds it (in
particular when both texts are empty). -/
theorem context_keys (ops : TextOps) (summary : HTTPHistory) (request response : Str) :
    (∀ k ∈ summaryKeys,
      (mapGet (mergeDSLContext summary (parseRawHTTP ops request true)
        (parseRawHTTP ops response false)) k).isSome = true) ∧
    (∀ k ∈ ["request".toList, "request_body".toList, "request_headers".toList],
      ((mapGet (mergeDSLContext summary (parseRawHTTP ops request true)
        (parseRawHTTP ops response false)) k).isSome = true ↔ request ≠ [])) ∧
    (∀ k ∈ ["response".toList, "response_body".toList, "response_headers".toList],
      ((mapGet (mergeDSLContext summary (parseRawHTTP ops request true)
        (parseRawHTTP ops response false)) k).isSome = true ↔ response ≠ [])) ∧
    (∀ k ∈ ["status_reason".toList, "http_version".toList, "content_length".toList],
      (mapGet (mergeDSLContext summary (parseRawHTTP ops request true)
        (parseRawHTTP ops response false)) k = none ↔
        mapGet (parseRawHTTP ops request true) k = none ∧
        mapGet (parseRawHTTP ops response false) k = none)) := by
  refine ⟨?_, ?_, ?_, ?_⟩
  · intro k hk
    rw [mergeDSLContext_get]
    have hbase := mergeDSLContext_base_some summary k hk
    cases mapGet (parseRawHTTP ops response false) k <;>
      cases mapGet (parseRawHTTP ops request true) k <;> simp [hbase]
  · intro k hk
    rw [mergeDSLContext_get]
    have hbase : mapGet (mergeDSLContext summary [] []) k = none := by
      apply mergeDSLContext_base_none
      simp only [List.mem_cons, List.mem_singleton, List.not_mem_nil, or_false] at hk
      rcases hk with h | h | h <;> (rw [h]; decide)
    have hmem : k ∈ ["request".toList, "request_body".toList, "request_headers".toList,
        "response".toList, "response_body".toList, "response_headers".toList] := by
      simp only [List.mem_cons] at hk ⊢; tauto
    have hreq := parseRawHTTP_message_keys ops request true k hmem
    have hresp := parseRawHTTP_message_keys ops response false k hmem
    have hnot : k ∉ ["response".toList, "response_body".toList, "response_headers".toList] := by
      simp only [List.mem_cons, List.mem_singleton, List.not_mem_nil, or_false] at hk
      rcases hk with h | h | h <;> (rw [h]; decide)
    simp only [if_true, Bool.false_eq_true, if_false, hk, hnot, and_true, and_false] at hreq hresp
    have hr : mapGet (parseRawHTTP ops response false) k = none := by
      cases h : mapGet (parseRawHTTP ops response false) k with
      | none => rfl
      | some v => rw [h] at hresp; simp at hresp
    rw [hr, hbase, ← hreq]
    cases mapGet (parseRawHTTP ops request true) k <;> simp
  · intro k hk
    rw [mergeDSLContext_get]
    have hbase : mapGet (mergeDSLContext summary [] []) k = none := by
      apply mergeDSLContext_base_none
      simp only [List.mem_cons, List.mem_singleton, List.not_mem_nil, or_false] at hk
      rcases hk with h | h | h <;> (rw [h]; decide)
    have hmem : k ∈ ["request".toList, "request_body".toList, "request_headers".toList,
        "response".toList, "response_body".toList, "response_headers".toList] := by
      simp only [List.mem_cons] at hk ⊢; tauto
    have hreq := parseRawHTTP_message_keys ops request true k hmem
    have hresp := parseRawHTTP_message_keys ops response false k hmem
    have hnot : k ∉ ["request".toList, "request_body".toList, "request_headers".toList] := by
      simp only [List.mem_cons, List.mem_singleton, List.not_mem_nil, or_false] at hk
      rcases hk with h | h | h <;> (rw [h]; decide)
    simp only [if_true, Bool.false_eq_true, if_false, hk, hnot, and_true, and_false] at hreq hresp
    have hr : mapGet (parseRawHTTP ops request true) k = none := by
      cases h : mapGet (parseRawHTTP ops request true) k with
      | none => rfl
      | some v => rw [h] at hreq; simp at hreq
    rw [hr, hbase, ← hresp]
    cases mapGet (parseRawHTTP ops response false) k <;> simp
  · intro k hk
    rw [mergeDSLContext_get]
    have hbase : mapGet (mergeDSLContext summary [] []) k = none := by
      apply mergeDSLContext_base_none
      simp only [List.mem_cons, List.mem_singleton, List.not_mem_nil, or_false] at hk
      rcases hk with h | h | h <;> (rw [h]; decide)
    rw [hbase]
    cases mapGet (parseRawHTTP ops response false) k <;>
      cases mapGet (parseRawHTTP ops request true) k <;> simp

/-! ## C8 -/

/-- C8 (defect in the code): the synthetic context `mockContext`, which
`validateDSL` evaluates the query against and which the source announces as
holding all possible fields, lacks the recognized keys `http_version` and
`content_length`, although a parsed request holds both (here for
`GET / HTTP/1.1` with a `Content-Length: 0` header); `validateDSL` accepts a
query exactly when its evaluation against this context succeeds. -/
theorem mockContext_misses_keys :
    recognizedKeys.filter (fun k => (mapGet mockContext k).isNone)
      = ["http_version".toList, "content_length".toList] ∧
    mapGet (parseRawHTTP asciiOps "GET / HTTP/1.1\r\nContent-Length: 0\r\n\r\n".toList true)
        "http_version".toList = some (Value.str "HTTP/1.1".toList) ∧
    mapGet (parseRawHTTP asciiOps "GET / HTTP/1.1\r\nContent-Length: 0\r\n\r\n".toList true)
        "content_length".toList = some (Value.str "0".toList) ∧
    (∀ (EvalExpr : Str → Context → Except Str Value) (dslQuery : Str),
      validateDSL EvalExpr dslQuery = none ↔ ∃ v, EvalExpr dslQuery mockContext = Except.ok v) := by
  refine ⟨by decide, by decide, by decide, ?_⟩
  intro EvalExpr dslQuery
  unfold validateDSL
  cases EvalExpr dslQuery mockContext <;> simp

/-! ## C9 -/

theorem parseRawHTTP_response_get_of_lines (ops : TextOps) (raw : Str) (k : Str)
    (hk1 : k ∉ ["host".toList, "content_type".toList, "content_length".toList])
    (hk2 : k ∉ ["response".toList, "response_body".toList, "response_headers".toList]) :
    mapGet (parseRawHTTP ops raw false) k
      = match scanLines [] (headersBlock raw) with
        | [] => none
        | line :: _ => mapGet (parseStartLine false line []) k := by
  simp only [List.mem_cons, List.mem_singleton, List.not_mem_nil, or_false, not_or] at hk2
  obtain ⟨n1, n2, n3⟩ := hk2
  by_cases hraw : raw = []
  · subst hraw
    have : scanLines [] (headersBlock []) = [] := by decide
    rw [this]
    rfl
  · unfold parseRawHTTP
    simp only [hraw, if_false, Bool.false_eq_true]
    rw [mapGet_mapSet_ne _ _ _ _ (Ne.symm n3)]
    cases scanLines [] (headersBlock raw) with
    | nil =>
      simp only [parseLines]
      rw [mapGet_mapSet_ne _ _ _ _ (Ne.symm n2), mapGet_mapSet_ne _ _ _ _ (Ne.symm n1)]
      rfl
    | cons line rest =>
      simp only [parseLines, if_true]
      rw [parseLines_header_frame ops false k hk1 rest 1 _ (by decide)]
      simp only
      unfold parseStartLine
      simp only [Bool.false_eq_true, if_false]
      split
      · by_cases e5 : "status_reason".toList = k
        · rw [← e5, mapGet_mapSet_self, mapGet_mapSet_self]
        · rw [mapGet_mapSet_ne _ _ _ _ e5, mapGet_mapSet_ne _ _ _ _ e5]
          by_cases e4 : "status".toList = k
          · rw [← e4, mapGet_mapSet_self, mapGet_mapSet_self]
          · rw [mapGet_mapSet_ne _ _ _ _ e4, mapGet_mapSet_ne _ _ _ _ e4,
              mapGet_mapSet_ne _ _ _ _ (Ne.symm n2), mapGet_mapSet_ne _ _ _ _ (Ne.symm n1)]
      · rw [mapGet_mapSet_ne _ _ _ _ (Ne.symm n2), mapGet_mapSet_ne _ _ _ _ (Ne.symm n1)]

/-- C9 (the claim as stated fails): the start line `HTTP/1.1 204`, a status
code without a reason phrase, splits into two parts and `parseRawHTTP` stores
neither `status` nor `status_reason`; with a reason phrase both are
stored. -/
theorem response_status_without_reason_dropped :
    strings.SplitN "HTTP/1.1 204".toList " ".toList 3 = ["HTTP/1.1".toList, "204".toList] ∧
    mapGet (parseRawHTTP asciiOps "HTTP/1.1 204\r\nServer: x\r\n\r\n".toList false)
        "status".toList = none ∧
    mapGet (parseRawHTTP asciiOps "HTTP/1.1 204\r\nServer: x\r\n\r\n".toList false)
        "status_reason".toList = none ∧
    mapGet (parseRawHTTP asciiOps "HTTP/1.1 204 No Content\r\nServer: x\r\n\r\n".toList false)
        "status".toList = some (Value.str "204".toList) := by
  decide

/-- C9 (amended): for every raw response, with `line` the first line that
the scanner delivers for the headers block: the line splits into at most
three space-separated parts; when it has all three parts
(`p0 SP p1 SP p2`, no space in `p0` and `p1`), the first is ignored, `status`
is the second and `status_reason` the third; when it has fewer than three
parts (one space, or none) neither `status` nor `status_reason` is stored;
nor are they when the scanner delivers no line at all. -/
theorem response_start_line (ops : TextOps) (raw : Str) :
    ((scanLines [] (headersBlock raw)).head? = none →
      mapGet (parseRawHTTP ops raw false) "status".toList = none ∧
      mapGet (parseRawHTTP ops raw false) "status_reason".toList = none) ∧
    (∀ line : Str, (scanLines [] (headersBlock raw)).head? = some line →
      (strings.SplitN line " ".toList 3).length ≤ 3 ∧
      (∀ p0 p1 p2 : Str, line = p0 ++ ' ' :: (p1 ++ ' ' :: p2) → ' ' ∉ p0 → ' ' ∉ p1 →
        mapGet (parseRawHTTP ops raw false) "status".toList = some (Value.str p1) ∧
        mapGet (parseRawHTTP ops raw false) "status_reason".toList = some (Value.str p2)) ∧
      (∀ p0 p1 : Str, line = p0 ++ ' ' :: p1 → ' ' ∉ p0 → ' ' ∉ p1 →
        mapGet (parseRawHTTP ops raw false) "status".toList = none ∧
        mapGet (parseRawHTTP ops raw false) "status_reason".toList = none) ∧
      (' ' ∉ line →
        mapGet (parseRawHTTP ops raw false) "status".toList = none ∧
        mapGet (parseRawHTTP ops raw false) "status_reason".toList = none)) := by
  have hs := parseRawHTTP_response_get_of_lines ops raw "status".toList (by decide) (by decide)
  have hr := parseRawHTTP_response_get_of_lines ops raw "status_reason".toList
    (by decide) (by decide)
  rw [hs, hr]
  cases hl : scanLines [] (headersBlock raw) with
  | nil => simp
  | cons first rest =>
    refine ⟨by simp, ?_⟩
    intro line hline
    simp only [List.head?_cons, Option.some.injEq] at hline
    subst hline
    refine ⟨SplitN_length_le _ 3 _, ?_, ?_, ?_⟩
    · intro p0 p1 p2 e h0 h1
      subst e
      simp only [parseStartLine, Bool.false_eq_true, if_false, SplitN_space_three p0 p1 p2 h0 h1]
      refine ⟨?_, mapGet_mapSet_self _ _ _⟩
      rw [mapGet_mapSet_ne _ _ _ _ (by decide), mapGet_mapSet_self]
    · intro p0 p1 e h0 h1
      subst e
      simp only [parseStartLine, Bool.false_eq_true, if_false, SplitN_space_two p0 p1 h0 h1]
      exact ⟨rfl, rfl⟩
    · intro h0
      simp only [parseStartLine, Bool.false_eq_true, if_false, SplitN_space_one first h0]
      exact ⟨rfl, rfl⟩

/-- C9 (amended) at the response `HTTP/1.1 200 OK` followed by one header:
the first line is `HTTP/1.1 200 OK`. -/
theorem response_start_line_witness :
    (scanLines [] (headersBlock "HTTP/1.1 200 OK\r\nServer: x\r\n\r\nok".toList)).head?
        = some "HTTP/1.1 200 OK".toList ∧
    mapGet (parseRawHTTP asciiOps "HTTP/1.1 200 OK\r\nServer: x\r\n\r\nok".toList false)
        "status".toList = some (Value.str "200".toList) ∧
    mapGet (parseRawHTTP asciiOps "HTTP/1.1 200 OK\r\nServer: x\r\n\r\nok".toList false)
        "status_reason".toList = some (Value.str "OK".toList) :=
  ⟨by decide,
    ((response_start_line asciiOps "HTTP/1.1 200 OK\r\nServer: x\r\n\r\nok".toList).2
      "HTTP/1.1 200 OK".toList (by decide)).2.1
      "HTTP/1.1".toList "200".toList "OK".toList (by decide) (by decide) (by decide)⟩

/-! ## C10 -/

theorem IndexByte_cases (c : Char) :
    ∀ s : Str, (c ∉ s ∧ strings.IndexByte s c = -1) ∨
      (∃ n : Nat, strings.IndexByte s c = (n : Int) ∧ c ∉ s.take n ∧
        s = s.take n ++ c :: s.drop (n + 1) ∧ (n = 0 ↔ s.head? = some c)) := by
  intro s
  induction s with
  | nil => left; simp [strings.IndexByte]
  | cons x xs ih =>
    by_cases hx : x = c
    · right
      exact ⟨0, by simp [strings.IndexByte, hx], by simp, by simp [hx], by simp [hx]⟩
    · rcases ih with ⟨h1, h2⟩ | ⟨n, h1, h2, h3, _⟩
      · left
        refine ⟨by simp [h1, Ne.symm hx], ?_⟩
        simp [strings.IndexByte, hx, h2]
      · right
        refine ⟨n + 1, ?_, ?_, ?_, ?_⟩
        · have : ¬ ((n : Int) < 0) := by omega
          simp [strings.IndexByte, hx, h1, this]
        · simp [List.take_succ_cons, h2, Ne.symm hx]
        · simp only [List.take_succ_cons, List.drop_succ_cons, List.cons_append]
          rw [← h3]
        · simp [hx]

theorem IndexByte_pos_iff (s : Str) (c : Char) :
    0 < strings.IndexByte s c ↔ c ∈ s ∧ s.head? ≠ some c := by
  rcases IndexByte_cases c s with ⟨h1, h2⟩ | ⟨n, h1, h2, h3, h4⟩
  · rw [h2]
    constructor
    · intro h; omega
    · intro h; exact absurd h.1 h1
  · rw [h1]
    have hmem : c ∈ s := by rw [h3]; simp
    constructor
    · intro h
      refine ⟨hmem, fun e => ?_⟩
      have := h4.2 e
      omega
    · intro h
      have : n ≠ 0 := fun e => h.2 (h4.1 e)
      omega

theorem IndexByte_split (s : Str) (c : Char) (h : 0 < strings.IndexByte s c) :
    s = s.take (strings.IndexByte s c).toNat ++ c :: s.drop ((strings.IndexByte s c).toNat + 1) ∧
      c ∉ s.take (strings.IndexByte s c).toNat := by
  rcases IndexByte_cases c s with ⟨_, h2⟩ | ⟨n, h1, h2, h3, _⟩
  · rw [h2] at h; omega
  · rw [h1]
    simp only [Int.toNat_ofNat]
    exact ⟨h3, h2⟩

theorem parseLines_headers_last (ops : TextOps) (isRequest : Bool) (k : Str) :
    ∀ (lines : List Str) (lineNum : Nat) (st : Context × GoMap Str), lineNum ≠ 0 →
      mapGet (parseLines ops isRequest lineNum lines st).2 k
        = match lines.reverse.find?
            (fun line => decide (0 < strings.IndexByte line ':' ∧ headerKey ops line = k)) with
          | some line => some (headerValue ops line)
          | none => mapGet st.2 k := by
  intro lines
  induction lines using List.reverseRecOn with
  | nil => intro lineNum st _; simp [parseLines]
  | append_singleton ls l ih =>
    intro lineNum st h0
    rw [parseLines_append, List.reverse_append]
    have hn : ¬ (lineNum + ls.length = 0) := by omega
    simp only [parseLines, hn, if_false, List.reverse_singleton, List.singleton_append,
      List.find?_cons]
    by_cases hp : 0 < strings.IndexByte l ':' ∧ headerKey ops l = k
    · simp only [hp, and_self, decide_True]
      rw [← hp.2]
      exact parseHeaderLine_headers_self ops l _ hp.1
    · simp only [hp, decide_False]
      rw [parseHeaderLine_headers_other ops l _ k hp]
      exact ih lineNum st h0

theorem parseHeaderLine_snd_indep (ops : TextOps) (line : Str) (st st' : Context × GoMap Str)
    (h : st.2 = st'.2) : (parseHeaderLine ops line st).2 = (parseHeaderLine ops line st').2 := by
  unfold parseHeaderLine
  simp only [h]
  split
  · split
    · rfl
    · split
      · rfl
      · split <;> rfl
  · exact h

theorem parseLines_snd_indep (ops : TextOps) (isRequest : Bool) :
    ∀ (lines : List Str) (lineNum : Nat) (st st' : Context × GoMap Str), st.2 = st'.2 →
      (parseLines ops isRequest lineNum lines st).2
        = (parseLines ops isRequest lineNum lines st').2 := by
  intro lines
  induction lines with
  | nil => intro lineNum st st' h; exact h
  | cons line rest ih =>
    intro lineNum st st' h
    simp only [parseLines]
    apply ih
    by_cases h0 : lineNum = 0
    · simp only [h0, if_true]
      exact h
    · simp only [h0, if_false]
      exact parseHeaderLine_snd_indep ops line st st' h

theorem parseRawHTTP_headers (ops : TextOps) (raw : Str) (isRequest : Bool) :
    (headersOf (parseRawHTTP ops raw isRequest) isRequest).getD []
      = (parseLines ops isRequest 0 (scanLines [] (headersBlock raw)) ([], [])).2 := by
  by_cases hraw : raw = []
  · subst hraw
    have hl : scanLines [] (headersBlock []) = [] := by decide
    rw [hl]
    rfl
  · unfold parseRawHTTP headersOf
    simp only [hraw, if_false]
    cases isRequest
    · simp only [Bool.false_eq_true, if_false]
      rw [mapGet_mapSet_self]
      exact parseLines_snd_indep ops false _ 0 _ _ rfl
    · simp only [if_true]
      rw [mapGet_mapSet_self]
      exact parseLines_snd_indep ops true _ 0 _ _ rfl

theorem parseRawHTTP_headers_get (ops : TextOps) (raw : Str) (isRequest : Bool) (k : Str) :
    mapGet ((headersOf (parseRawHTTP ops raw isRequest) isRequest).getD []) k
      = ((scanLines [] (headersBlock raw)).tail.reverse.find?
          (fun line => decide (0 < strings.IndexByte line ':' ∧ headerKey ops line = k))).map
          (headerValue ops) := by
  rw [parseRawHTTP_headers ops raw isRequest]
  cases scanLines [] (headersBlock raw) with
  | nil => simp [parseLines, mapGet]
  | cons first rest =>
    simp only [parseLines, if_true, List.tail_cons]
    rw [parseLines_headers_last ops isRequest k rest 1 _ (by decide)]
    cases rest.reverse.find?
        (fun line => decide (0 < strings.IndexByte line ':' ∧ headerKey ops line = k)) with
    | none => simp [mapGet]
    | some l => simp

/-! ## The parser: head and body -/

theorem Cut_some_spec (sep : Str) :
    ∀ (s a b : Str), strings.Cut s sep = some (a, b) →
      s = a ++ sep ++ b ∧ ∀ a' b' : Str, s = a' ++ sep ++ b' → a.length ≤ a'.length := by
  intro s
  induction s with
  | nil =>
    intro a b h
    by_cases hs : sep = []
    · simp [strings.Cut, hs] at h
      obtain ⟨rfl, rfl⟩ := h
      simp [hs]
    · simp [strings.Cut, hs] at h
  | cons c cs ih =>
    intro a b h
    by_cases hp : sep.isPrefixOf (c :: cs) = true
    · simp only [strings.Cut, hp, if_true, Option.some.injEq, Prod.mk.injEq] at h
      obtain ⟨rfl, rfl⟩ := h
      obtain ⟨t, ht⟩ := List.isPrefixOf_iff_prefix.1 hp
      refine ⟨?_, by simp⟩
      rw [← ht]
      simp
    · simp only [strings.Cut, hp, Bool.false_eq_true, if_false] at h
      cases hc : strings.Cut cs sep with
      | none => simp [hc] at h
      | some p =>
        obtain ⟨a1, b1⟩ := p
        simp only [hc, Option.some.injEq, Prod.mk.injEq] at h
        obtain ⟨rfl, rfl⟩ := h
        obtain ⟨h1, h2⟩ := ih a1 b1 hc
        refine ⟨by rw [h1]; simp, ?_⟩
        intro a' b' e
        cases a' with
        | nil =>
          exfalso
          apply hp
          rw [List.isPrefixOf_iff_prefix]
          exact ⟨b', by simpa using e.symm⟩
        | cons x a'' =>
          simp only [List.cons_append, List.cons.injEq] at e
          have := h2 a'' b' (by simpa using e.2)
          simp only [List.length_cons]
          omega

theorem Cut_none_spec (sep : Str) :
    ∀ s : Str, strings.Cut s sep = none → ∀ a' b' : Str, s ≠ a' ++ sep ++ b' := by
  intro s
  induction s with
  | nil =>
    intro h a' b' e
    by_cases hs : sep = []
    · simp [strings.Cut, hs] at h
    · have : sep = [] := by
        have hl := congrArg List.length e
        simp only [List.length_nil, List.length_append] at hl
        exact List.length_eq_zero.1 (by omega)
      exact hs this
  | cons c cs ih =>
    intro h a' b' e
    by_cases hp : sep.isPrefixOf (c :: cs) = true
    · simp [strings.Cut, hp] at h
    · simp only [strings.Cut, hp, Bool.false_eq_true, if_false] at h
      cases hc : strings.Cut cs sep with
      | some p => simp [hc] at h
      | none =>
        cases a' with
        | nil =>
          apply hp
          rw [List.isPrefixOf_iff_prefix]
          exact ⟨b', by simpa using e.symm⟩
        | cons x a'' =>
          simp only [List.cons_append, List.cons.injEq] at e
          exact ih hc a'' b' (by simpa using e.2)

theorem headersBlock_bodyBlock (raw : Str) :
    (strings.Cut raw CRLFCRLF = none ∧ headersBlock raw = raw ∧ bodyBlock raw = []) ∨
    (strings.Cut raw CRLFCRLF = some (headersBlock raw, bodyBlock raw)) := by
  unfold headersBlock bodyBlock
  have e : "\r\n\r\n".toList = CRLFCRLF := rfl
  rw [e]
  simp only [strings.SplitN]
  cases h : strings.Cut raw CRLFCRLF with
  | none => left; simp
  | some p => right; simp

/-! ## The context builder: the overlay -/

theorem mergeDSLContext_base (summary : HTTPHistory) :
    mergeDSLContext summary [] [] =
      [ ("id".toList, Value.int summary.ID),
        ("url".toList, Value.str summary.FullUrl),
        ("path".toList, Value.str summary.Path),
        ("method".toList, Value.str summary.Method),
        ("host".toList, Value.str summary.Host),
        ("status".toList, Value.str summary.Status),
        ("length".toList, Value.str summary.Length),
        ("content_type".toList, Value.str summary.ContentType),
        ("timestamp".toList, Value.str summary.CreatedAt) ] := by
  simp [mergeDSLContext, mapOverlay, mapSet]

theorem summaryField_none (summary : HTTPHistory) (k : Str) (hk : k ∉ summaryKeys) :
    summaryField summary k = none := by
  have h := mergeDSLContext_base_none summary k hk
  rw [mergeDSLContext_base] at h
  exact h

/-! ## The query -/

theorem evaluateDSL_eq_ok (EvalExpr : Str → Context → Except Str Value) (dslQuery : Str)
    (context : Context) (b : Bool) :
    evaluateDSL EvalExpr dslQuery context = (b, none)
      ↔ EvalExpr dslQuery context = Except.ok (Value.bool b) := by
  unfold evaluateDSL
  cases h : EvalExpr dslQuery context with
  | error e => simp
  | ok v => cases v <;> simp

theorem queryLoop_matched (EvalExpr : Str → Context → Except Str Value) (ops : TextOps)
    (GetTraffic : Int → Option Str × Option Str) (dslQuery : Str) :
    ∀ histories : List HTTPHistory,
      (queryLoop EvalExpr ops GetTraffic dslQuery histories).1
        = (histories.filter (fun h => decide (h.Hid ≠ 0 ∧
            evaluateDSL EvalExpr dslQuery (recordContext ops GetTraffic h) = (true, none)))).map
            dbHistoryToMitmHistory := by
  intro histories
  induction histories with
  | nil => rfl
  | cons h rest ih =>
    by_cases h0 : h.Hid = 0
    · simp [queryLoop, h0, ih]
    · simp only [queryLoop, h0, if_false, List.filter_cons, ne_eq, not_false_eq_true, true_and]
      rcases he : evaluateDSL EvalExpr dslQuery (recordContext ops GetTraffic h) with ⟨b, e⟩
      cases e with
      | some err => simp [ih]
      | none => cases b <;> simp [ih]

theorem sortById_perm (l : List mitmproxy.HTTPHistory) : (sortById l).Perm l :=
  List.perm_insertionSort _ l

theorem sortById_sorted (l : List mitmproxy.HTTPHistory) :
    (sortById l).Pairwise (fun a b => a.Id ≤ b.Id) := by
  haveI : IsTotal mitmproxy.HTTPHistory (fun a b => a.Id ≤ b.Id) :=
    ⟨fun a b => le_total a.Id b.Id⟩
  haveI : IsTrans mitmproxy.HTTPHistory (fun a b => a.Id ≤ b.Id) :=
    ⟨fun a b c hab hbc => le_trans hab hbc⟩
  exact List.sorted_insertionSort _ l

theorem toOption_eq_some_ok {ε α : Type} {x : Except ε α} {a : α}
    (h : x.toOption = some a) : x = Except.ok a := by
  cases x with
  | error e => simp [Except.toOption] at h
  | ok b =>
    simp only [Except.toOption, Option.some.injEq] at h
    rw [h]

theorem QueryHistoryByDSL_ok (EvalExpr : Str → Context → Except Str Value) (ops : TextOps)
    (store : Store) (dslQuery : Str) (R : List mitmproxy.HTTPHistory)
    (h : QueryHistoryByDSL EvalExpr ops store dslQuery = Except.ok R) :
    (dslQuery = [] ∧ R = []) ∨
    (dslQuery ≠ [] ∧ validateDSL EvalExpr dslQuery = none ∧
      ∃ histories, store.GetAllHistory = Except.ok histories ∧
        R = sortById (queryLoop EvalExpr ops store.GetTraffic dslQuery histories).1) := by
  unfold QueryHistoryByDSL at h
  by_cases hq : dslQuery = []
  · left
    simp only [hq, if_true, Except.ok.injEq] at h
    exact ⟨hq, h.symm⟩
  · right
    simp only [hq, if_false] at h
    cases hv : validateDSL EvalExpr dslQuery with
    | some err => simp [hv] at h
    | none =>
      simp only [hv] at h
      cases hs : store.GetAllHistory with
      | error err => simp [hs] at h
      | ok histories =>
        simp only [hs, Except.ok.injEq] at h
        exact ⟨hq, rfl, histories, rfl, h.symm⟩

/-! ## The tool handler -/

theorem generateIntruderRequests_some (Processing : Str → Str) (rawReq : Str)
    (positions : List Str) (payloadItems : List PayloadItem) (attackType : Str) :
    ∃ requests : List intruderRequest,
      generateIntruderRequests Processing rawReq positions payloadItems attackType
        = some requests := by
  unfold generateIntruderRequests
  split
  · exact ⟨_, rfl⟩
  · split
    · exact ⟨_, rfl⟩
    · split
      · cases payloadItems with
        | nil => exact ⟨[], rfl⟩
        | cons first rest =>
          obtain ⟨h1, h2, _⟩ := pitchforkMinLen_le rest first.Items.length
          have hall : ∀ item ∈ first :: rest,
              0 + pitchforkMinLen first.Items.length rest ≤ item.Items.length := by
            intro item hit
            rcases List.mem_cons.1 hit with e | e
            · subst e; omega
            · have := h2 item e; omega
          obtain ⟨requests, k1, _, _⟩ := pitchforkLoop_spec rawReq positions (first :: rest)
            (pitchforkMinLen first.Items.length rest) 0 hall
          exact ⟨requests, by simp [generatePitchforkRequests, k1]⟩
      · split
        · exact ⟨_, rfl⟩
        · exact ⟨[], rfl⟩

theorem handleRunIntruder_valid (Processing : Str → Str)
    (parseJSON : Str → Except Str (List (List Str)))
    (execute : Str → List intruderRequest → List intruderResult)
    (req : Str → Option Str) (target rawRequest payloadsStr attackType : Str)
    (payloadSets : List (List Str)) (requests : List intruderRequest)
    (h1 : req "target".toList = some target)
    (h2 : req "raw_request".toList = some rawRequest)
    (h3 : req "payloads".toList = some payloadsStr)
    (h4 : req "attack_type".toList = some attackType)
    (h5 : parseJSON payloadsStr = Except.ok payloadSets)
    (h6 : payloadSets ≠ [])
    (h7 : GetPositions rawRequest ≠ [])
    (h8 : generateIntruderRequests Processing rawRequest (GetPositions rawRequest)
      (buildPayloadItems 0 payloadSets) attackType = some requests) :
    handleRunIntruder Processing parseJSON execute req
      = some
          (if requests = [] then
            (CallToolResult.error (ToolError.unsupportedAttackType attackType), [])
          else if requests.length > maxIntruderRequests then
            (CallToolResult.error
              (ToolError.tooManyCombinations requests.length maxIntruderRequests), [])
          else (CallToolResult.json (execute target requests), requests)) := by
  have h6' : ¬ (payloadSets.length = 0) := fun e => h6 (List.length_eq_zero.1 e)
  have h7' : ¬ ((GetPositions rawRequest).length = 0) := fun e => h7 (List.length_eq_zero.1 e)
  unfold handleRunIntruder
  simp only [h1, h2, h3, h4, h5, h6', h7', if_false, h8]
  split
  · rfl
  · split <;> rfl

/-! ## The dispatcher -/

theorem launchLoop_mem (cancelled : Nat → Bool) :
    ∀ (requests : List intruderRequest) (k : Nat) (t : intruderTask),
      t ∈ launchLoop cancelled k requests ↔
        ∃ j : Nat, t.idx = k + j ∧ requests[j]? = some t.r ∧
          ∀ j' : Nat, j' ≤ j → cancelled (k + j') = false := by
  intro requests
  induction requests with
  | nil => intro k t; simp [launchLoop]
  | cons ir rest ih =>
    intro k t
    by_cases hc : cancelled k = true
    · simp only [launchLoop, hc, if_true, List.not_mem_nil, false_iff, not_exists, not_and]
      intro j _ _ hall
      have := hall 0 (Nat.zero_le _)
      simp [hc] at this
    · have hc' : cancelled k = false := by simpa using hc
      simp only [launchLoop, hc', Bool.false_eq_true, if_false, List.mem_cons, ih]
      constructor
      · rintro (e | ⟨j, h1, h2, h3⟩)
        · subst e
          refine ⟨0, rfl, by simp, ?_⟩
          intro j' hj'
          have : j' = 0 := by omega
          subst this
          exact hc'
        · refine ⟨j + 1, by omega, by simpa using h2, ?_⟩
          intro j' hj'
          cases j' with
          | zero => exact hc'
          | succ j'' =>
            have := h3 j'' (by omega)
            rw [← this]
            congr 1
            omega
      · rintro ⟨j, h1, h2, h3⟩
        cases j with
        | zero =>
          left
          simp only [List.getElem?_cons_zero, Option.some.injEq] at h2
          cases t
          simp only [Nat.add_zero] at h1
          simp only at h2
          subst h1 h2
          rfl
        | succ j =>
          right
          refine ⟨j, by omega, by simpa using h2, ?_⟩
          intro j' hj'
          have := h3 (j' + 1) (by omega)
          rw [← this]
          congr 1
          omega

theorem launchLoop_idx_lt (cancelled : Nat → Bool) :
    ∀ (requests : List intruderRequest) (k : Nat),
      (launchLoop cancelled k requests).Pairwise (fun a b => a.idx < b.idx) ∧
      ∀ t ∈ launchLoop cancelled k requests, k ≤ t.idx := by
  intro requests
  induction requests with
  | nil => intro k; simp [launchLoop]
  | cons ir rest ih =>
    intro k
    by_cases hc : cancelled k = true
    · simp [launchLoop, hc]
    · obtain ⟨h1, h2⟩ := ih (k + 1)
      have hc' : cancelled k = false := by simpa using hc
      simp only [launchLoop, hc', Bool.false_eq_true, if_false, List.pairwise_cons,
        List.mem_cons]
      refine ⟨⟨?_, h1⟩, ?_⟩
      · intro t ht
        have := h2 t ht
        omega
      · rintro t (e | ht)
        · subst e; exact Nat.le_refl _
        · have := h2 t ht
          omega

theorem launchLoop_nodup (cancelled : Nat → Bool) (requests : List intruderRequest) :
    ((launchLoop cancelled 0 requests).map (fun t => t.idx)).Nodup := by
  have h := (launchLoop_idx_lt cancelled requests 0).1
  rw [List.Nodup, List.pairwise_map]
  exact h.imp (fun hab => Nat.ne_of_lt hab)

theorem foldl_completeTask_length (Raw : Nat → Str → Str → RawOutcome) (target : Str) :
    ∀ (schedule : List intruderTask) (results : List intruderResult),
      (schedule.foldl (completeTask Raw target) results).length = results.length := by
  intro schedule
  induction schedule with
  | nil => intro results; rfl
  | cons t rest ih => intro results; simp [List.foldl_cons, ih, completeTask]

theorem foldl_completeTask_other (Raw : Nat → Str → Str → RawOutcome) (target : Str) (i : Nat) :
    ∀ (schedule : List intruderTask) (results : List intruderResult),
      (∀ t ∈ schedule, t.idx ≠ i) →
      (schedule.foldl (completeTask Raw target) results)[i]? = results[i]? := by
  intro schedule
  induction schedule with
  | nil => intro results _; rfl
  | cons t rest ih =>
    intro results h
    rw [List.foldl_cons, ih _ (fun t' ht' => h t' (by simp [ht']))]
    have hne : t.idx ≠ i := h t (by simp)
    simp [completeTask, List.getElem?_set, hne]

theorem foldl_completeTask_written (Raw : Nat → Str → Str → RawOutcome) (target : Str) :
    ∀ (schedule : List intruderTask) (results : List intruderResult),
      (schedule.map (fun t => t.idx)).Nodup →
      ∀ t ∈ schedule, t.idx < results.length →
        (schedule.foldl (completeTask Raw target) results)[t.idx]?
          = some (taskResult (Raw t.idx t.r.Request target) t.r) := by
  intro schedule
  induction schedule with
  | nil => intro results _ t ht; simp at ht
  | cons s rest ih =>
    intro results hnd t ht hlt
    simp only [List.map_cons, List.nodup_cons, List.mem_map, not_exists, not_and] at hnd
    rw [List.foldl_cons]
    rcases List.mem_cons.1 ht with e | hr
    · subst e
      rw [foldl_completeTask_other Raw target t.idx rest _
        (fun t' ht' e => hnd.1 t' ht' e)]
      simp [completeTask, List.getElem?_set, hlt]
    · exact ih _ hnd.2 t hr (by simpa [completeTask] using hlt)

/-! ## Pitchfork: the requests -/

theorem pitchforkInner_spec (payloadItems : List PayloadItem) (i : Nat)
    (hi : ∀ item ∈ payloadItems, i < item.Items.length) :
    ∀ (positions : List Str) (j : Nat) (r : Str) (payloads : List Str),
      pitchforkInner payloadItems i j positions (r, payloads)
        = some
            ((List.zip positions (payloadItems.drop j)).foldl
                (fun text p => strings.Replace1 text p.1 (p.2.Items.getD i [])) r,
              payloads ++ ((payloadItems.drop j).take positions.length).map
                (fun item => item.Items.getD i [])) := by
  intro positions
  induction positions with
  | nil => intro j r payloads; simp [pitchforkInner]
  | cons pos rest ih =>
    intro j r payloads
    by_cases h : j < payloadItems.length
    · have hm : payloadItems[j] ∈ payloadItems := List.getElem_mem h
      have hlt := hi _ hm
      have hd : payloadItems.drop j = payloadItems[j] :: payloadItems.drop (j + 1) :=
        List.drop_eq_getElem_cons h
      have hx : payloadItems[j].Items.getD i [] = payloadItems[j].Items[i] := by
        simp [List.getD_eq_getElem?_getD, List.getElem?_eq_getElem hlt]
      simp only [pitchforkInner, h, dite_true, List.getElem?_eq_getElem hlt]
      rw [ih, hd]
      simp only [List.zip_cons_cons, List.foldl_cons, List.length_cons, List.take_succ_cons,
        List.map_cons, List.append_assoc, List.singleton_append, hx]
    · have hd : payloadItems.drop j = [] := List.drop_eq_nil_of_le (by omega)
      have hd1 : payloadItems.drop (j + 1) = [] := List.drop_eq_nil_of_le (by omega)
      simp only [pitchforkInner, h, dite_false]
      rw [ih, hd, hd1]
      simp

theorem pitchforkLoop_requests (rawReq : Str) (positions : List Str)
    (payloadItems : List PayloadItem) :
    ∀ (n i : Nat), (∀ item ∈ payloadItems, i + n ≤ item.Items.length) →
      ∃ requests, pitchforkLoop rawReq positions payloadItems n i = some requests ∧
        requests.length = n ∧
        ∀ (t : Nat) (req : intruderRequest), requests[t]? = some req →
          t < n ∧
          req.Request = (List.zip positions payloadItems).foldl
            (fun text p => strings.Replace1 text p.1 (p.2.Items.getD (i + t) [])) rawReq ∧
          req.Payload = (payloadItems.take positions.length).map
            (fun item => item.Items.getD (i + t) []) := by
  intro n
  induction n with
  | zero => intro i _; exact ⟨[], by simp [pitchforkLoop], rfl, by simp⟩
  | succ n ih =>
    intro i h
    have hi : ∀ item ∈ payloadItems, i < item.Items.length :=
      fun item hit => by have := h item hit; omega
    have hinner := pitchforkInner_spec payloadItems i hi positions 0 rawReq []
    simp only [List.drop_zero, List.nil_append] at hinner
    obtain ⟨requests, h1, h2, h3⟩ := ih (i + 1) (fun item hit => by have := h item hit; omega)
    refine ⟨{ ID := (i : Int) + 1,
              Request := (List.zip positions payloadItems).foldl
                (fun text p => strings.Replace1 text p.1 (p.2.Items.getD i [])) rawReq,
              Payload := (payloadItems.take positions.length).map
                (fun item => item.Items.getD i []) } :: requests, ?_, ?_, ?_⟩
    · simp only [pitchforkLoop, hinner, h1]
    · simp [h2]
    · intro t req ht
      cases t with
      | zero =>
        simp only [List.getElem?_cons_zero, Option.some.injEq] at ht
        subst ht
        simp
      | succ t =>
        simp only [List.getElem?_cons_succ] at ht
        obtain ⟨k1, k2, k3⟩ := h3 t req ht
        have e : i + 1 + t = i + (t + 1) := by omega
        rw [e] at k2 k3
        exact ⟨by omega, k2, k3⟩

/-! ## C11 -/

/-- C11 (the claim as stated fails): the line `:authority: example.com`
contains a `:` and yet is dropped, because its first `:` is its first
character; of the two header lines of the request below only
`Accept: text/html` reaches the headers mapping. -/
theorem header_line_with_leading_colon_dropped :
    scanLines [] (headersBlock
        "GET / HTTP/2\r\n:authority: example.com\r\nAccept: text/html\r\n\r\n".toList)
      = ["GET / HTTP/2".toList, ":authority: example.com".toList, "Accept: text/html".toList] ∧
    ':' ∈ ":authority: example.com".toList ∧
    headersOf (parseRawHTTP asciiOps
        "GET / HTTP/2\r\n:authority: example.com\r\nAccept: text/html\r\n\r\n".toList true) true
      = some [("accept".toList, "text/html".toList)] := by
  decide

/-- C11 (amended): for every message, either kind, with `lines` the lines
that the scanner delivers for the headers block and `headers` the stored
headers mapping: `headers[k]` is the value of the last line of index ≥ 1
that has a `:` after its first character and whose key is `k` (later lines
overwrite earlier ones), and `k` is absent when there is no such line; a
line has a `:` after its first character exactly when it contains `:` and
does not start with it, all other lines are dropped; for such a line,
split at its first `:` into `before` and `after`, the key is
`ToLower(TrimSpace(before))` and the value `TrimSpace(after)`, whatever
further `:` the value contains; every stored key is a lowercased text. -/
theorem header_lines_stored (ops : TextOps) (raw : Str) (isRequest : Bool) :
    (∀ k : Str,
      mapGet ((headersOf (parseRawHTTP ops raw isRequest) isRequest).getD []) k
        = ((scanLines [] (headersBlock raw)).tail.reverse.find?
            (fun line => decide (0 < strings.IndexByte line ':' ∧ headerKey ops line = k))).map
            (headerValue ops)) ∧
    (∀ line : Str, 0 < strings.IndexByte line ':' ↔ (':' ∈ line ∧ line.head? ≠ some ':')) ∧
    (∀ line : Str, 0 < strings.IndexByte line ':' →
      ∃ before after : Str, line = before ++ ':' :: after ∧ ':' ∉ before ∧
        headerKey ops line = ops.ToLower (ops.TrimSpace before) ∧
        headerValue ops line = ops.TrimSpace after) ∧
    (∀ k : Str,
      (mapGet ((headersOf (parseRawHTTP ops raw isRequest) isRequest).getD []) k).isSome = true →
      ∃ s : Str, k = ops.ToLower s) := by
  refine ⟨parseRawHTTP_headers_get ops raw isRequest, fun line => IndexByte_pos_iff line ':',
    ?_, ?_⟩
  · intro line h
    obtain ⟨h1, h2⟩ := IndexByte_split line ':' h
    exact ⟨_, _, h1, h2, rfl, rfl⟩
  · intro k hk
    rw [parseRawHTTP_headers_get] at hk
    cases hf : (scanLines [] (headersBlock raw)).tail.reverse.find?
        (fun line => decide (0 < strings.IndexByte line ':' ∧ headerKey ops line = k)) with
    | none => rw [hf] at hk; simp at hk
    | some l =>
      have := List.find?_some hf
      simp only [decide_eq_true_eq] at this
      exact ⟨_, this.2.symm⟩

/-- C11 (amended) at a request with the header `X-Time: 12:30`: the value,
which contains a `:`, is stored whole under the lowercased key. -/
theorem header_lines_stored_witness :
    mapGet ((headersOf (parseRawHTTP asciiOps
        "GET / HTTP/1.1\r\nX-Time: 12:30\r\n\r\n".toList true) true).getD []) "x-time".toList
      = some "12:30".toList :=
  ((header_lines_stored asciiOps "GET / HTTP/1.1\r\nX-Time: 12:30\r\n\r\n".toList true).1
    "x-time".toList).trans (by decide)

/-! ## C12 -/

/-- C12: for every non-empty raw message, either kind, `parseRawHTTP`
stores the whole raw text under `request` (or `response`) and stores the
body key `request_body` (or `response_body`); when the raw text contains
CRLFCRLF it is the headers block, CRLFCRLF and the body, in this order, the
split being at the first occurrence (no split by CRLFCRLF has a shorter
head, and the headers block contains no CRLFCRLF); otherwise the body is
the empty string and the headers block is the whole input. -/
theorem head_body_split (ops : TextOps) (raw : Str) (isRequest : Bool) (hraw : raw ≠ []) :
    mapGet (parseRawHTTP ops raw isRequest)
        (if isRequest then "request".toList else "response".toList) = some (Value.str raw) ∧
    mapGet (parseRawHTTP ops raw isRequest)
        (if isRequest then "request_body".toList else "response_body".toList)
      = some (Value.str (bodyBlock raw)) ∧
    ((∃ a b : Str, raw = a ++ CRLFCRLF ++ b) →
      raw = headersBlock raw ++ CRLFCRLF ++ bodyBlock raw ∧
      (∀ a b : Str, raw = a ++ CRLFCRLF ++ b → (headersBlock raw).length ≤ a.length) ∧
      ¬ CRLFCRLF <:+: headersBlock raw) ∧
    ((¬ ∃ a b : Str, raw = a ++ CRLFCRLF ++ b) → headersBlock raw = raw ∧ bodyBlock raw = []) := by
  refine ⟨?_, ?_, ?_, ?_⟩
  · cases isRequest
    · obtain ⟨hm, h⟩ := parseRawHTTP_get ops raw false "response".toList hraw (by decide)
      simp only [Bool.false_eq_true, if_false] at h ⊢
      rw [h]
      rfl
    · obtain ⟨hm, h⟩ := parseRawHTTP_get ops raw true "request".toList hraw (by decide)
      simp only [if_true] at h ⊢
      rw [h]
      rfl
  · cases isRequest
    · obtain ⟨hm, h⟩ := parseRawHTTP_get ops raw false "response_body".toList hraw (by decide)
      simp only [Bool.false_eq_true, if_false] at h ⊢
      rw [h]
      rfl
    · obtain ⟨hm, h⟩ := parseRawHTTP_get ops raw true "request_body".toList hraw (by decide)
      simp only [if_true] at h ⊢
      rw [h]
      rfl
  · rintro ⟨a, b, e⟩
    rcases headersBlock_bodyBlock raw with ⟨h, _, _⟩ | h
    · exact absurd e (Cut_none_spec CRLFCRLF raw h a b)
    · obtain ⟨h1, h2⟩ := Cut_some_spec CRLFCRLF raw _ _ h
      refine ⟨h1, h2, ?_⟩
      rintro ⟨s, t, e2⟩
      have hlen := h2 s (t ++ CRLFCRLF ++ bodyBlock raw) (by
        conv_lhs => rw [h1, ← e2]
        simp)
      have hl2 := congrArg List.length e2
      simp only [List.length_append] at hl2
      have : CRLFCRLF.length = 4 := rfl
      omega
  · intro hno
    rcases headersBlock_bodyBlock raw with ⟨_, h2, h3⟩ | h
    · exact ⟨h2, h3⟩
    · exact absurd ⟨_, _, (Cut_some_spec CRLFCRLF raw _ _ h).1⟩ hno

/-- C12 at the request `GET /x HTTP/1.1`, one header and the body `a`
followed by a second CRLFCRLF: the body starts after the first one. -/
theorem head_body_split_witness :
    "GET /x HTTP/1.1\r\nHost: h\r\n\r\na\r\n\r\nb".toList ≠ [] ∧
    headersBlock "GET /x HTTP/1.1\r\nHost: h\r\n\r\na\r\n\r\nb".toList
      = "GET /x HTTP/1.1\r\nHost: h".toList ∧
    mapGet (parseRawHTTP asciiOps "GET /x HTTP/1.1\r\nHost: h\r\n\r\na\r\n\r\nb".toList true)
        "request_body".toList = some (Value.str "a\r\n\r\nb".toList) ∧
    "GET /x HTTP/1.1\r\nHost: h\r\n\r\na\r\n\r\nb".toList
      = headersBlock "GET /x HTTP/1.1\r\nHost: h\r\n\r\na\r\n\r\nb".toList ++ CRLFCRLF ++
          bodyBlock "GET /x HTTP/1.1\r\nHost: h\r\n\r\na\r\n\r\nb".toList :=
  ⟨by decide, by decide, by decide,
    ((head_body_split asciiOps "GET /x HTTP/1.1\r\nHost: h\r\n\r\na\r\n\r\nb".toList true
      (by decide)).2.2.1
      ⟨"GET /x HTTP/1.1\r\nHost: h".toList, "a\r\n\r\nb".toList, by decide⟩).1⟩

/-! ## C13 -/

/-- C13: for every summary and every pair of parsed maps, the context
returned by `mergeDSLContext` maps each key `k` to the value of the response
map when that map has `k`, otherwise to the value of the request map when
that map has `k`, otherwise to the summary field for `k` (which exists for
the nine summary keys only); so the context has no key outside the nine
summary keys and the keys of the two maps. -/
theorem context_overlay_precedence (summary : HTTPHistory) (requestData responseData : Context)
    (k : Str) :
    mapGet (mergeDSLContext summary requestData responseData) k
      = (match mapGet responseData k with
         | some v => some v
         | none =>
           match mapGet requestData k with
           | some v => some v
           | none => summaryField summary k) ∧
    ((summaryField summary k).isSome = true ↔ k ∈ summaryKeys) ∧
    ((mapGet (mergeDSLContext summary requestData responseData) k).isSome = true →
      k ∈ summaryKeys ∨ (mapGet requestData k).isSome = true ∨
        (mapGet responseData k).isSome = true) := by
  have hbase : mapGet (mergeDSLContext summary [] []) k = summaryField summary k := by
    rw [mergeDSLContext_base]
    rfl
  have hiff : (summaryField summary k).isSome = true ↔ k ∈ summaryKeys := by
    constructor
    · intro h
      by_contra hk
      rw [summaryField_none summary k hk] at h
      simp at h
    · intro hk
      rw [← hbase]
      exact mergeDSLContext_base_some summary k hk
  have hget : mapGet (mergeDSLContext summary requestData responseData) k
      = (match mapGet responseData k with
         | some v => some v
         | none =>
           match mapGet requestData k with
           | some v => some v
           | none => summaryField summary k) := by
    rw [mergeDSLContext_get, hbase]
    cases mapGet responseData k <;> cases mapGet requestData k <;> rfl
  refine ⟨hget, hiff, ?_⟩
  intro h
  rw [hget] at h
  cases h1 : mapGet responseData k with
  | some v => right; right; rfl
  | none =>
    cases h2 : mapGet requestData k with
    | some v => right; left; rfl
    | none =>
      left
      rw [h1, h2] at h
      exact hiff.1 h

/-! ## C14 -/

/-- C15: for every DSL text and every store whose record ids are pairwise
distinct, in whatever order the store returns the records, every list `R`
that `QueryHistoryByDSL` returns is strictly ascending in `Id`: each element
has a smaller `Id` than the next. -/
theorem query_result_order (EvalExpr : Str → Context → Except Str Value) (ops : TextOps)
    (store : Store) (dslQuery : Str) (R : List mitmproxy.HTTPHistory)
    (hR : QueryHistoryByDSL EvalExpr ops store dslQuery = Except.ok R)
    (hd : ∀ histories, store.GetAllHistory = Except.ok histories →
      (histories.map (fun h => h.ID)).Nodup) :
    ∀ (i : Nat) (a b : mitmproxy.HTTPHistory), R[i]? = some a → R[i + 1]? = some b →
      a.Id < b.Id := by
  rcases QueryHistoryByDSL_ok EvalExpr ops store dslQuery R hR with ⟨_, rfl⟩ | ⟨_, _, hs⟩
  · intro i a b h; simp at h
  · obtain ⟨histories, hs, rfl⟩ := hs
    have hnd := hd histories hs
    have hsub : ((queryLoop EvalExpr ops store.GetTraffic dslQuery histories).1.map
        (fun r => r.Id)).Sublist (histories.map (fun h => h.ID)) := by
      rw [queryLoop_matched, List.map_map]
      have : (fun r : mitmproxy.HTTPHistory => r.Id) ∘ dbHistoryToMitmHistory
          = fun h : HTTPHistory => h.ID := rfl
      rw [this]
      exact (List.filter_sublist _).map _
    have hnd2 : ((sortById (queryLoop EvalExpr ops store.GetTraffic dslQuery histories).1).map
        (fun r => r.Id)).Nodup :=
      ((sortById_perm _).map _).nodup_iff.2 (hsub.nodup hnd)
    have hsorted := sortById_sorted (queryLoop EvalExpr ops store.GetTraffic dslQuery histories).1
    intro i a b ha hb
    obtain ⟨hi, rfl⟩ := List.getElem?_eq_some.1 ha
    obtain ⟨hj, rfl⟩ := List.getElem?_eq_some.1 hb
    have hle := List.pairwise_iff_getElem.1 hsorted i (i + 1) hi hj (by omega)
    have hne : (sortById (queryLoop EvalExpr ops store.GetTraffic dslQuery histories).1)[i].Id
        ≠ (sortById (queryLoop EvalExpr ops store.GetTraffic dslQuery histories).1)[i + 1].Id := by
      intro e
      have h1 := List.pairwise_iff_getElem.1 hnd2 i (i + 1) (by simpa using hi)
        (by simpa using hj) (by omega)
      simp only [List.getElem_map] at h1
      exact h1 e
    omega

/-- C15 at a store that returns the ids 3, 1, 2 in this order, all records
matching: the result has the ids 1, 2, 3. -/
theorem query_result_order_witness :
    (QueryHistoryByDSL (fun _ _ => Except.ok (Value.bool true)) asciiOps
        { GetAllHistory := Except.ok
            [ { sampleSummary with ID := 3 }, { sampleSummary with ID := 1 },
              { sampleSummary with ID := 2 } ],
          GetTraffic := fun _ => (none, none) }
        "true".toList).toOption
      = some [ dbHistoryToMitmHistory { sampleSummary with ID := 1 },
          dbHistoryToMitmHistory { sampleSummary with ID := 2 },
          dbHistoryToMitmHistory { sampleSummary with ID := 3 } ] ∧
    (dbHistoryToMitmHistory { sampleSummary with ID := 1 }).Id
      < (dbHistoryToMitmHistory { sampleSummary with ID := 2 }).Id :=
  ⟨by decide,
    query_result_order (fun _ _ => Except.ok (Value.bool true)) asciiOps
      { GetAllHistory := Except.ok
          [ { sampleSummary with ID := 3 }, { sampleSummary with ID := 1 },
            { sampleSummary with ID := 2 } ],
        GetTraffic := fun _ => (none, none) }
      "true".toList
      [ dbHistoryToMitmHistory { sampleSummary with ID := 1 },
        dbHistoryToMitmHistory { sampleSummary with ID := 2 },
        dbHistoryToMitmHistory { sampleSummary with ID := 3 } ]
      (toOption_eq_some_ok (by decide))
      (by
        intro histories h
        simp only [Except.ok.injEq] at h
        subst h
        decide)
      0
      (dbHistoryToMitmHistory { sampleSummary with ID := 1 })
      (dbHistoryToMitmHistory { sampleSummary with ID := 2 })
      (by decide) (by decide)⟩

/-! ## C16 -/

/-- C16: for every expression and context, `evaluateDSL` returns
`(b, nil)` exactly when the underlying evaluator succeeds with the boolean
`b`; it returns `false` with an error when the evaluator fails (the error
is passed on) and when it succeeds with a value that is not a boolean; and
a record whose expression does not evaluate to a boolean leaves the list of
matched records of the query as it is without it. -/
theorem evaluateDSL_boolean_only (EvalExpr : Str → Context → Except Str Value)
    (dslQuery : Str) (context : Context) :
    (∀ b : Bool, evaluateDSL EvalExpr dslQuery context = (b, none)
      ↔ EvalExpr dslQuery context = Except.ok (Value.bool b)) ∧
    (∀ err : Str, EvalExpr dslQuery context = Except.error err →
      evaluateDSL EvalExpr dslQuery context = (false, some (DSLError.eval err))) ∧
    (∀ v : Value, EvalExpr dslQuery context = Except.ok v → (∀ b : Bool, v ≠ Value.bool b) →
      evaluateDSL EvalExpr dslQuery context = (false, some (DSLError.notBool v))) ∧
    (∀ (ops : TextOps) (GetTraffic : Int → Option Str × Option Str) (history : HTTPHistory)
      (rest : List HTTPHistory),
      (∀ b : Bool, EvalExpr dslQuery (recordContext ops GetTraffic history)
        ≠ Except.ok (Value.bool b)) →
      (queryLoop EvalExpr ops GetTraffic dslQuery (history :: rest)).1
        = (queryLoop EvalExpr ops GetTraffic dslQuery rest).1) := by
  refine ⟨evaluateDSL_eq_ok EvalExpr dslQuery context, ?_, ?_, ?_⟩
  · intro err h
    simp [evaluateDSL, h]
  · intro v h hv
    unfold evaluateDSL
    rw [h]
    cases v with
    | bool b => exact absurd rfl (hv b)
    | str s => rfl
    | int n => rfl
    | strMap m => rfl
    | other p => rfl
  · intro ops GetTraffic history rest h
    have hne : evaluateDSL EvalExpr dslQuery (recordContext ops GetTraffic history)
        ≠ (true, none) := fun e => h true ((evaluateDSL_eq_ok _ _ _ true).1 e)
    rw [queryLoop_matched, queryLoop_matched]
    simp [List.filter_cons, hne]

/-- C16 at an evaluator that yields the string `yes` for every query: the
result is false with an error, and the one record of the store is not
matched. -/
theorem evaluateDSL_boolean_only_witness :
    evaluateDSL (fun _ _ => Except.ok (Value.str "yes".toList)) "host".toList mockContext
      = (false, some (DSLError.notBool (Value.str "yes".toList))) ∧
    (queryLoop (fun _ _ => Except.ok (Value.str "yes".toList)) asciiOps (fun _ => (none, none))
        "host".toList [sampleSummary]).1 = [] :=
  ⟨(evaluateDSL_boolean_only (fun _ _ => Except.ok (Value.str "yes".toList)) "host".toList
      mockContext).2.2.1 (Value.str "yes".toList) rfl (by intro b; simp),
    by decide⟩

/-! ## C17 -/

/-- C17: for every `run_intruder` call that reaches the generator (all
four arguments given, payloads that parse to at least one set, a template
with at least one position), with `requests` the generated list: the
requests handed to the dispatcher are the generated ones if and only if
their number is at most `maxIntruderRequests = 1000`; when the number
exceeds 1000 the call returns the error that carries that number and the
cap, and nothing is dispatched; a non-empty list of at most 1000 requests
is dispatched whole and the call returns the results. -/
theorem intruder_cap (Processing : Str → Str)
    (parseJSON : Str → Except Str (List (List Str)))
    (execute : Str → List intruderRequest → List intruderResult)
    (req : Str → Option Str) (target rawRequest payloadsStr attackType : Str)
    (payloadSets : List (List Str))
    (h1 : req "target".toList = some target)
    (h2 : req "raw_request".toList = some rawRequest)
    (h3 : req "payloads".toList = some payloadsStr)
    (h4 : req "attack_type".toList = some attackType)
    (h5 : parseJSON payloadsStr = Except.ok payloadSets)
    (h6 : payloadSets ≠ [])
    (h7 : GetPositions rawRequest ≠ []) :
    maxIntruderRequests = 1000 ∧
    ∃ (requests : List intruderRequest) (outcome : CallToolResult × List intruderRequest),
      generateIntruderRequests Processing rawRequest (GetPositions rawRequest)
        (buildPayloadItems 0 payloadSets) attackType = some requests ∧
      handleRunIntruder Processing parseJSON execute req = some outcome ∧
      (outcome.2 = requests ↔ requests.length ≤ maxIntruderRequests) ∧
      (maxIntruderRequests < requests.length →
        outcome = (CallToolResult.error
          (ToolError.tooManyCombinations requests.length maxIntruderRequests), [])) ∧
      (requests ≠ [] → requests.length ≤ maxIntruderRequests →
        outcome = (CallToolResult.json (execute target requests), requests)) := by
  refine ⟨rfl, ?_⟩
  obtain ⟨requests, hg⟩ := generateIntruderRequests_some Processing rawRequest
    (GetPositions rawRequest) (buildPayloadItems 0 payloadSets) attackType
  have hh := handleRunIntruder_valid Processing parseJSON execute req target rawRequest
    payloadsStr attackType payloadSets requests h1 h2 h3 h4 h5 h6 h7 hg
  refine ⟨requests, _, hg, hh, ?_, ?_, ?_⟩
  · by_cases he : requests = []
    · subst he
      simp [maxIntruderRequests]
    · by_cases hc : requests.length > maxIntruderRequests
      · simp only [he, hc, if_true, if_false]
        constructor
        · intro e; exact absurd e.symm he
        · intro hle; omega
      · simp only [he, hc, if_false, true_iff]
        omega
  · intro hc
    have he : requests ≠ [] := by
      intro e
      rw [e] at hc
      simp at hc
    simp [he, hc]
  · intro he hle
    have hc : ¬ (requests.length > maxIntruderRequests) := by omega
    simp [he, hc]

set_option maxRecDepth 100000 in
/-- C17 at the specification's scenario S6: three positions and three sets
of eleven payloads under cluster-bomb give 1331 requests; the call returns
the error with 1331 and 1000 and dispatches nothing. -/
theorem intruder_cap_witness :
    handleRunIntruder id
        (fun _ => Except.ok
          [ ["0".toList, "1".toList, "2".toList, "3".toList, "4".toList, "5".toList,
              "6".toList, "7".toList, "8".toList, "9".toList, "10".toList],
            ["0".toList, "1".toList, "2".toList, "3".toList, "4".toList, "5".toList,
              "6".toList, "7".toList, "8".toList, "9".toList, "10".toList],
            ["0".toList, "1".toList, "2".toList, "3".toList, "4".toList, "5".toList,
              "6".toList, "7".toList, "8".toList, "9".toList, "10".toList] ])
        (fun _ _ => [])
        (intruderArgs "https://example.com".toList "GET /§A§/§B§/§C§ HTTP/1.1".toList
          "payloads".toList "cluster-bomb".toList)
      = some (CallToolResult.error (ToolError.tooManyCombinations 1331 1000), []) := by
  obtain ⟨_, requests, outcome, hg, hh, _, htoo, _⟩ := intruder_cap id
    (fun _ => Except.ok
      [ ["0".toList, "1".toList, "2".toList, "3".toList, "4".toList, "5".toList,
          "6".toList, "7".toList, "8".toList, "9".toList, "10".toList],
        ["0".toList, "1".toList, "2".toList, "3".toList, "4".toList, "5".toList,
          "6".toList, "7".toList, "8".toList, "9".toList, "10".toList],
        ["0".toList, "1".toList, "2".toList, "3".toList, "4".toList, "5".toList,
          "6".toList, "7".toList, "8".toList, "9".toList, "10".toList] ])
    (fun _ _ => [])
    (intruderArgs "https://example.com".toList "GET /§A§/§B§/§C§ HTTP/1.1".toList
      "payloads".toList "cluster-bomb".toList)
    "https://example.com".toList "GET /§A§/§B§/§C§ HTTP/1.1".toList "payloads".toList
    "cluster-bomb".toList
    [ ["0".toList, "1".toList, "2".toList, "3".toList, "4".toList, "5".toList,
        "6".toList, "7".toList, "8".toList, "9".toList, "10".toList],
      ["0".toList, "1".toList, "2".toList, "3".toList, "4".toList, "5".toList,
        "6".toList, "7".toList, "8".toList, "9".toList, "10".toList],
      ["0".toList, "1".toList, "2".toList, "3".toList, "4".toList, "5".toList,
        "6".toList, "7".toList, "8".toList, "9".toList, "10".toList] ]
    (by decide) (by decide) (by decide) (by decide) rfl (by decide) (by decide)
  have hlen : requests.length = 1331 := by
    have hd : (generateIntruderRequests id "GET /§A§/§B§/§C§ HTTP/1.1".toList
        (GetPositions "GET /§A§/§B§/§C§ HTTP/1.1".toList)
        (buildPayloadItems 0
          [ ["0".toList, "1".toList, "2".toList, "3".toList, "4".toList, "5".toList,
              "6".toList, "7".toList, "8".toList, "9".toList, "10".toList],
            ["0".toList, "1".toList, "2".toList, "3".toList, "4".toList, "5".toList,
              "6".toList, "7".toList, "8".toList, "9".toList, "10".toList],
            ["0".toList, "1".toList, "2".toList, "3".toList, "4".toList, "5".toList,
              "6".toList, "7".toList, "8".toList, "9".toList, "10".toList] ])
        "cluster-bomb".toList).map List.length = some 1331 := by
      decide
    rw [hg] at hd
    simpa using hd
  rw [hh, htoo (by rw [hlen]; decide), hlen]
  rfl

/-! ## C18 -/

/-- C18: for every list of requests and every order `schedule` in which
the started goroutines write their slots, `executeIntruderRequests` returns
a list of the length of the input; the slot of a request that was launched
(no cancellation observed up to its iteration) holds the result of that
request, which carries its id and its payload, and status 0 and length 0
when its HTTP call failed; a slot whose request was never launched (a
cancellation was observed at or before its iteration) keeps the zero value,
whose id is 0. -/
theorem dispatch_result_shape (Raw : Nat → Str → Str → RawOutcome) (cancelled : Nat → Bool)
    (target : Str) (requests : List intruderRequest) (schedule : List intruderTask)
    (hs : schedule.Perm (launchLoop cancelled 0 requests)) :
    (executeIntruderRequests Raw target requests schedule).length = requests.length ∧
    (∀ (i : Nat) (r : intruderRequest), requests[i]? = some r →
      (∀ j : Nat, j ≤ i → cancelled j = false) →
      (executeIntruderRequests Raw target requests schedule)[i]?
        = some (taskResult (Raw i r.Request target) r)) ∧
    (∀ (outcome : RawOutcome) (r : intruderRequest),
      (taskResult outcome r).ID = r.ID ∧ (taskResult outcome r).Payload = r.Payload ∧
      ((∃ err, outcome.response = Except.error err) →
        (taskResult outcome r).Status = 0 ∧ (taskResult outcome r).Length = 0)) ∧
    (∀ i : Nat, i < requests.length → (∃ j : Nat, j ≤ i ∧ cancelled j = true) →
      (executeIntruderRequests Raw target requests schedule)[i]? = some intruderResult.zero) ∧
    intruderResult.zero.ID = 0 := by
  have hnd : (schedule.map (fun t => t.idx)).Nodup :=
    (hs.map _).nodup_iff.2 (launchLoop_nodup cancelled requests)
  refine ⟨?_, ?_, ?_, ?_, rfl⟩
  · simp [executeIntruderRequests, foldl_completeTask_length]
  · intro i r hr hc
    have hmem : ({ idx := i, r := r } : intruderTask) ∈ schedule := by
      rw [hs.mem_iff, launchLoop_mem]
      exact ⟨i, by simp, hr, fun j' hj' => by simpa using hc j' hj'⟩
    have hlt : i < requests.length := (List.getElem?_eq_some.1 hr).1
    exact foldl_completeTask_written Raw target schedule _ hnd _ hmem (by simpa using hlt)
  · intro outcome r
    unfold taskResult
    cases h : outcome.response with
    | error e => simp
    | ok resp =>
      refine ⟨rfl, rfl, ?_⟩
      rintro ⟨err, he⟩
      cases he
  · rintro i hi ⟨j, hj, hc⟩
    unfold executeIntruderRequests
    rw [foldl_completeTask_other Raw target i schedule]
    · simp [hi]
    · intro t ht e
      rw [hs.mem_iff, launchLoop_mem] at ht
      obtain ⟨j0, h1, _, h3⟩ := ht
      have := h3 j (by omega)
      simp [hc] at this

/-- C18 at two requests, the goroutine of the second writing first, and
the HTTP call of the first failing. -/
theorem dispatch_result_shape_witness :
    [ ({ idx := 1, r := { ID := 2, Request := "b".toList, Payload := ["y".toList] } }
        : intruderTask),
      { idx := 0, r := { ID := 1, Request := "a".toList, Payload := ["x".toList] } } ].Perm
      (launchLoop (fun _ => false) 0
        [ { ID := 1, Request := "a".toList, Payload := ["x".toList] },
          { ID := 2, Request := "b".toList, Payload := ["y".toList] } ]) ∧
    executeIntruderRequests
        (fun i _ _ =>
          if i = 0 then { response := Except.error "timeout".toList, durationMs := 5000 }
          else { response := Except.ok (200, 12), durationMs := 30 })
        "https://example.com".toList
        [ { ID := 1, Request := "a".toList, Payload := ["x".toList] },
          { ID := 2, Request := "b".toList, Payload := ["y".toList] } ]
        [ { idx := 1, r := { ID := 2, Request := "b".toList, Payload := ["y".toList] } },
          { idx := 0, r := { ID := 1, Request := "a".toList, Payload := ["x".toList] } } ]
      = [ { ID := 1, Payload := ["x".toList], Status := 0, Length := 0, TimeMs := 5000 },
          { ID := 2, Payload := ["y".toList], Status := 200, Length := 12, TimeMs := 30 } ] ∧
    (executeIntruderRequests
        (fun i _ _ =>
          if i = 0 then { response := Except.error "timeout".toList, durationMs := 5000 }
          else { response := Except.ok (200, 12), durationMs := 30 })
        "https://example.com".toList
        [ { ID := 1, Request := "a".toList, Payload := ["x".toList] },
          { ID := 2, Request := "b".toList, Payload := ["y".toList] } ]
        [ { idx := 1, r := { ID := 2, Request := "b".toList, Payload := ["y".toList] } },
          { idx := 0, r := { ID := 1, Request := "a".toList, Payload := ["x".toList] } } ]).length
      = [ ({ ID := 1, Request := "a".toList, Payload := ["x".toList] } : intruderRequest),
          { ID := 2, Request := "b".toList, Payload := ["y".toList] } ].length :=
  ⟨List.Perm.swap _ _ _, by decide,
    (dispatch_result_shape
      (fun i _ _ =>
        if i = 0 then { response := Except.error "timeout".toList, durationMs := 5000 }
        else { response := Except.ok (200, 12), durationMs := 30 })
      (fun _ => false) "https://example.com".toList
      [ { ID := 1, Request := "a".toList, Payload := ["x".toList] },
        { ID := 2, Request := "b".toList, Payload := ["y".toList] } ]
      [ { idx := 1, r := { ID := 2, Request := "b".toList, Payload := ["y".toList] } },
        { idx := 0, r := { ID := 1, Request := "a".toList, Payload := ["x".toList] } } ]
      (List.Perm.swap _ _ _)).1⟩

/-! ## C19 -/

/-- C19 (defect in the code): `handleRunIntruder` takes an empty generated
list for an unsupported attack type. With the template `GET /§1§ HTTP/1.1`
(one position), the payload sets `[[]]` and the attack type `sniper`, the
call returns the error `unsupported attack type: sniper`, although `sniper`
is one of the four attack types; so does `pitchfork` with the sets
`[["a"], []]`. An attack type outside the four, such as `snipe`, gets the
same error. -/
theorem empty_generation_reported_as_unsupported :
    handleRunIntruder id (fun _ => Except.ok [[]]) (fun _ _ => [])
        (intruderArgs "https://example.com".toList "GET /§1§ HTTP/1.1".toList
          "[[]]".toList "sniper".toList)
      = some (CallToolResult.error (ToolError.unsupportedAttackType "sniper".toList), []) ∧
    generateIntruderRequests id "GET /§1§ HTTP/1.1".toList
        (GetPositions "GET /§1§ HTTP/1.1".toList) (buildPayloadItems 0 [[]]) "sniper".toList
      = some [] ∧
    handleRunIntruder id (fun _ => Except.ok [["a".toList], []]) (fun _ _ => [])
        (intruderArgs "https://example.com".toList "GET /§1§ HTTP/1.1".toList
          "[[a],[]]".toList "pitchfork".toList)
      = some (CallToolResult.error (ToolError.unsupportedAttackType "pitchfork".toList), []) ∧
    handleRunIntruder id (fun _ => Except.ok [["a".toList]]) (fun _ _ => [])
        (intruderArgs "https://example.com".toList "GET /§1§ HTTP/1.1".toList
          "[[a]]".toList "snipe".toList)
      = some (CallToolResult.error (ToolError.unsupportedAttackType "snipe".toList), []) := by
  decide

/-! ## C20 -/

/-- C20: for every list of `m` positions and `k ≥ 1` payload sets of any
lengths, `generatePitchforkRequests` returns its list without a panic (no
read of a payload set or of a payload index is out of range); for every `t`
below the number of emitted requests, `t` is a valid index of every payload
set, the payload array of the `t`-th request is
`[S_0[t], …, S_(min(k,m)-1)[t]]`, of length `min(k, m)`, and the request
text is the template after replacing, for the positions of index below
`min(k, m)` in order, the first occurrence of the position by `S_j[t]`; no
replacement is made for a position of index `k` or more. -/
theorem pitchfork_payloads_in_range (rawReq : Str) (positions : List Str)
    (first : PayloadItem) (rest : List PayloadItem) :
    ∃ requests : List intruderRequest,
      generatePitchforkRequests rawReq positions (first :: rest) = some requests ∧
      ∀ (t : Nat) (req : intruderRequest), requests[t]? = some req →
        (∀ item ∈ first :: rest, t < item.Items.length) ∧
        req.Payload.map some
          = ((first :: rest).take positions.length).map (fun item => item.Items[t]?) ∧
        req.Payload.length = min (first :: rest).length positions.length ∧
        req.Request = (List.zip positions (first :: rest)).foldl
          (fun text p => strings.Replace1 text p.1 (p.2.Items.getD t [])) rawReq := by
  obtain ⟨h1, h2, _⟩ := pitchforkMinLen_le rest first.Items.length
  have hall : ∀ item ∈ first :: rest,
      0 + pitchforkMinLen first.Items.length rest ≤ item.Items.length := by
    intro item hit
    rcases List.mem_cons.1 hit with e | e
    · subst e; omega
    · have := h2 item e; omega
  obtain ⟨requests, k1, _, k3⟩ := pitchforkLoop_requests rawReq positions (first :: rest)
    (pitchforkMinLen first.Items.length rest) 0 hall
  refine ⟨requests, by simp [generatePitchforkRequests, k1], ?_⟩
  intro t req ht
  obtain ⟨a1, a2, a3⟩ := k3 t req ht
  simp only [Nat.zero_add] at a2 a3
  have hlt : ∀ item ∈ first :: rest, t < item.Items.length := by
    intro item hit
    have := hall item hit
    omega
  refine ⟨hlt, ?_, ?_, a2⟩
  · rw [a3, List.map_map]
    apply List.map_congr_left
    intro item hit
    have := hlt item (List.mem_of_mem_take hit)
    simp [List.getD_eq_getElem?_getD, List.getElem?_eq_getElem this]
  · rw [a3]
    simp [Nat.min_comm]

/-- C20 at three positions and the two payload sets `[a, b]`, `[1, 2, 3]`:
two requests; the second one has the payload array `[b, 2]` and keeps the
third marker. -/
theorem pitchfork_payloads_in_range_witness :
    generatePitchforkRequests "GET /§X§/§Y§/§Z§ HTTP/1.1".toList
        ["§X§".toList, "§Y§".toList, "§Z§".toList]
        [ { ID := 1, Type_ := "simple".toList, Items := ["a".toList, "b".toList] },
          { ID := 2, Type_ := "simple".toList,
            Items := ["1".toList, "2".toList, "3".toList] } ]
      = some
          [ { ID := 1, Request := "GET /a/1/§Z§ HTTP/1.1".toList,
              Payload := ["a".toList, "1".toList] },
            { ID := 2, Request := "GET /b/2/§Z§ HTTP/1.1".toList,
              Payload := ["b".toList, "2".toList] } ] := by
  obtain ⟨requests, h, hall⟩ := pitchfork_payloads_in_range "GET /§X§/§Y§/§Z§ HTTP/1.1".toList
    ["§X§".toList, "§Y§".toList, "§Z§".toList]
    { ID := 1, Type_ := "simple".toList, Items := ["a".toList, "b".toList] }
    [ { ID := 2, Type_ := "simple".toList, Items := ["1".toList, "2".toList, "3".toList] } ]
  rw [h]
  have hlen : requests.length = 2 := by
    have hd : (generatePitchforkRequests "GET /§X§/§Y§/§Z§ HTTP/1.1".toList
        ["§X§".toList, "§Y§".toList, "§Z§".toList]
        [ { ID := 1, Type_ := "simple".toList, Items := ["a".toList, "b".toList] },
          { ID := 2, Type_ := "simple".toList,
            Items := ["1".toList, "2".toList, "3".toList] } ]).map List.length = some 2 := by
      decide
    rw [h] at hd
    simpa using hd
  have hid : (generatePitchforkRequests "GET /§X§/§Y§/§Z§ HTTP/1.1".toList
        ["§X§".toList, "§Y§".toList, "§Z§".toList]
        [ { ID := 1, Type_ := "simple".toList, Items := ["a".toList, "b".toList] },
          { ID := 2, Type_ := "simple".toList,
            Items := ["1".toList, "2".toList, "3".toList] } ]).map
        (fun l => l.map (fun r => r.ID)) = some [1, 2] := by
    decide
  rw [h] at hid
  simp only [Option.map_some', Option.some.injEq] at hid
  match requests, hlen, hall, hid with
  | [r0, r1], _, hall, hid =>
    obtain ⟨_, p0, _, q0⟩ := hall 0 r0 rfl
    obtain ⟨_, p1, _, q1⟩ := hall 1 r1 rfl
    simp only [List.map_cons, List.map_nil, List.cons.injEq, and_true] at hid
    have e0 : r0.Payload = ["a".toList, "1".toList] :=
      List.map_injective_iff.2 (Option.some_injective _) (p0.trans (by decide))
    have e1 : r1.Payload = ["b".toList, "2".toList] :=
      List.map_injective_iff.2 (Option.some_injective _) (p1.trans (by decide))
    have f0 : r0.Request = "GET /a/1/§Z§ HTTP/1.1".toList := q0.trans (by decide)
    have f1 : r1.Request = "GET /b/2/§Z§ HTTP/1.1".toList := q1.trans (by decide)
    cases r0
    cases r1
    simp only at e0 e1 f0 f1 hid
    simp [e0, e1, f0, f1, hid.1, hid.2]

end ChYing
